import Mathlib

/-!
Verification of the file-backed repository / manager core of the
`ulacit-fundamentos-ti` repository (assets, library and students apps).

The Python sources are shallowly embedded: JSON files become optional lists
of flat records (`none` models an absent file), every fallible operation
(one that may raise in Python) returns an `Option`, and the numeric types
used by the serializers (`decimal.Decimal`, `datetime.datetime`) are
modelled by explicit structures together with executable print and parse
functions mirroring the library routines the code calls.
-/

namespace Spec2Proof

/-! ## Characters and digits

Helpers shared by every serializer: decimal digit characters and their
inverse, exactly the `'0'`-`'9'` range used by Python's `str`/`int`. -/

/-- The character for a single decimal digit (`0 ↦ '0'`, …, `9 ↦ '9'`). -/
def digitChar (d : Nat) : Char := Char.ofNat (48 + d)

/-- Inverse of `digitChar`: `some d` on `'0'`-`'9'`, `none` otherwise. -/
def charDigit (c : Char) : Option Nat :=
  if 48 ≤ c.toNat ∧ c.toNat ≤ 57 then some (c.toNat - 48) else none

theorem charDigit_digitChar {d : Nat} (hd : d < 10) :
    charDigit (digitChar d) = some d := by
  interval_cases d <;> decide

theorem digitChar_ne_special {d : Nat} (hd : d < 10) :
    digitChar d ≠ 'E' ∧ digitChar d ≠ 'e' ∧ digitChar d ≠ '.' ∧
      digitChar d ≠ '-' ∧ digitChar d ≠ '+' := by
  interval_cases d <;> decide

/-! ## Decimal digit strings for natural numbers

`natDigits n` is the list of decimal digits of `n`, most significant first,
as produced by Python's `str` on a non-negative `int`; `digitsVal` is the
value of such a list, as computed by Python's `int`. -/

/-- Value of a digit list (most significant digit first). -/
def digitsVal (ds : List Nat) : Nat := ds.foldl (fun a d => a * 10 + d) 0

/-- Fuel-driven worker for `natDigits`; `fuel ≥ n` suffices. -/
def natDigitsFuel : Nat → Nat → List Nat
  | 0, _ => []
  | fuel + 1, n => if n = 0 then [] else natDigitsFuel fuel (n / 10) ++ [n % 10]

/-- Decimal digits of `n`, most significant first (`natDigits 0 = [0]`). -/
def natDigits (n : Nat) : List Nat :=
  if n = 0 then [0] else natDigitsFuel n n

theorem digitsVal_append_singleton (ds : List Nat) (d : Nat) :
    digitsVal (ds ++ [d]) = digitsVal ds * 10 + d := by
  simp [digitsVal, List.foldl_append]

theorem digitsVal_natDigitsFuel :
    ∀ fuel n, n ≤ fuel → digitsVal (natDigitsFuel fuel n) = n := by
  intro fuel
  induction fuel with
  | zero => intro n hn; interval_cases n; simp [natDigitsFuel, digitsVal]
  | succ f ih =>
    intro n hn
    by_cases h0 : n = 0
    · simp [natDigitsFuel, h0, digitsVal]
    · have hdiv : n / 10 ≤ f := by omega
      simp only [natDigitsFuel, h0, if_false]
      rw [digitsVal_append_singleton, ih _ hdiv]
      omega

theorem digitsVal_natDigits (n : Nat) : digitsVal (natDigits n) = n := by
  by_cases h0 : n = 0
  · simp [natDigits, h0, digitsVal]
  · simp only [natDigits, h0, if_false]
    exact digitsVal_natDigitsFuel n n le_rfl

theorem natDigitsFuel_lt_ten : ∀ fuel n, ∀ d ∈ natDigitsFuel fuel n, d < 10 := by
  intro fuel
  induction fuel with
  | zero => intro n d hd; simp [natDigitsFuel] at hd
  | succ f ih =>
    intro n d hd
    by_cases h0 : n = 0
    · simp [natDigitsFuel, h0] at hd
    · simp only [natDigitsFuel, h0, if_false, List.mem_append, List.mem_singleton] at hd
      rcases hd with hd | hd
      · exact ih _ _ hd
      · omega

theorem natDigits_lt_ten (n : Nat) : ∀ d ∈ natDigits n, d < 10 := by
  intro d hd
  by_cases h0 : n = 0
  · simp [natDigits, h0] at hd; omega
  · simp only [natDigits, h0, if_false] at hd
    exact natDigitsFuel_lt_ten n n d hd

theorem natDigitsFuel_ne_nil (fuel n : Nat) (h0 : n ≠ 0) (hf : n ≤ fuel) :
    natDigitsFuel fuel n ≠ [] := by
  cases fuel with
  | zero => omega
  | succ f =>
    simp only [natDigitsFuel, h0, if_false]
    intro h
    exact absurd (List.append_eq_nil.mp h).2 (by simp)

theorem natDigits_ne_nil (n : Nat) : natDigits n ≠ [] := by
  by_cases h0 : n = 0
  · simp [natDigits, h0]
  · simp only [natDigits, h0, if_false]
    exact natDigitsFuel_ne_nil n n h0 le_rfl

/-- The character string Python's `str` prints for a non-negative `int`. -/
def natChars (n : Nat) : List Char := (natDigits n).map digitChar

/-- Left-to-right traversal that stops at the first failure, the behavior
of a Python list comprehension whose element conversion may raise. -/
def mapOption (f : α → Option β) : List α → Option (List β)
  | [] => some []
  | a :: tl =>
    match f a with
    | none => none
    | some b =>
      match mapOption f tl with
      | none => none
      | some bs => some (b :: bs)

theorem mapOption_eq_some_of_forall {f : α → Option β} {g : β → α} {bs : List β}
    (h : ∀ b ∈ bs, f (g b) = some b) :
    mapOption f (bs.map g) = some bs := by
  induction bs with
  | nil => rfl
  | cons b tl ih =>
    have hb : f (g b) = some b := h b (by simp)
    have htl := ih (fun x hx => h x (by simp [hx]))
    simp [mapOption, hb, htl]

theorem mapOption_length {f : α → Option β} {as : List α} {bs : List β}
    (h : mapOption f as = some bs) : bs.length = as.length := by
  induction as generalizing bs with
  | nil => simp [mapOption] at h; simp [← h]
  | cons a tl ih =>
    simp only [mapOption] at h
    cases hfa : f a with
    | none => rw [hfa] at h; exact absurd h (by simp)
    | some b =>
      rw [hfa] at h
      cases htl : mapOption f tl with
      | none => rw [htl] at h; exact absurd h (by simp)
      | some bs' =>
        rw [htl] at h
        simp only [Option.some_inj] at h
        simp [← h, ih htl]

/-- The shape of every `get_by_id` loop: return the first element
satisfying the test, `none` when no element does. -/
def findFirstSuch (q : α → Bool) : List α → Option α
  | [] => none
  | a :: tl => if q a then some a else findFirstSuch q tl

/-- The shape of every `update` loop: replace the first element
satisfying the test, reporting `none` when no element does. -/
def replaceFirstIf (q : α → Bool) (x : α) : List α → Option (List α)
  | [] => none
  | a :: tl =>
    if q a then some (x :: tl)
    else
      match replaceFirstIf q x tl with
      | none => none
      | some tl2 => some (a :: tl2)

/-- Sequential digit parse of a whole character list, as Python's `int`
does on a string of decimal digits; `none` models `ValueError`. -/
def parseNatChars (cs : List Char) : Option Nat :=
  if cs = [] then none
  else (mapOption charDigit cs).map digitsVal

theorem mapOption_charDigit_digitChar {ds : List Nat} (h : ∀ d ∈ ds, d < 10) :
    mapOption charDigit (ds.map digitChar) = some ds :=
  mapOption_eq_some_of_forall (fun d hd => charDigit_digitChar (h d hd))

theorem parseNatChars_natChars (n : Nat) : parseNatChars (natChars n) = some n := by
  have hne : natChars n ≠ [] := by
    simp only [natChars, ne_eq, List.map_eq_nil_iff]
    exact natDigits_ne_nil n
  rw [parseNatChars, if_neg hne, natChars,
    mapOption_charDigit_digitChar (natDigits_lt_ten n)]
  simp [digitsVal_natDigits]

/-! ## Python `decimal.Decimal`

`Product.price` is a `decimal.Decimal`.  CPython represents a finite
decimal as a sign, a tuple of coefficient digits and an integer exponent;
`__str__` uses the to-scientific-string algorithm and the string
constructor parses sign, integer part, fractional part and exponent,
re-deriving the digit tuple via `str(int(intpart + fracpart))`. -/

/-- A finite Python `Decimal`: sign (`true` = negative), coefficient
digits (most significant first) and exponent. -/
structure PyDecimal where
  sign : Bool
  digits : List Nat
  exp : Int
deriving DecidableEq

/-- The representation invariant every `Decimal` built by CPython has:
a non-empty digit tuple of decimal digits with no leading zero (the
coefficient of zero itself is the single digit `0`). -/
def PyDecimal.Valid (d : PyDecimal) : Prop :=
  d.digits ≠ [] ∧ (∀ x ∈ d.digits, x < 10) ∧ (d.digits.head? = some 0 → d.digits = [0])

instance (d : PyDecimal) : Decidable d.Valid := by
  unfold PyDecimal.Valid; infer_instance

/-- `exp + len(digits)`: the count of coefficient digits left of the
decimal point, as in `Decimal.__str__`. -/
def PyDecimal.leftdigits (d : PyDecimal) : Int := d.exp + d.digits.length

/-- Where `Decimal.__str__` puts the decimal point: after `leftdigits`
digits in the no-exponent regime, after 1 digit in scientific notation. -/
def PyDecimal.dotplace (d : PyDecimal) : Int :=
  if d.exp ≤ 0 ∧ -6 < d.leftdigits then d.leftdigits else 1

/-- The sign-less mantissa part of `Decimal.__str__`'s output. -/
def decBody (d : PyDecimal) : List Char :=
  let ds := d.digits.map digitChar
  if d.dotplace ≤ 0 then
    '0' :: '.' :: (List.replicate (-d.dotplace).toNat '0' ++ ds)
  else if (d.digits.length : Int) ≤ d.dotplace then
    ds ++ List.replicate (d.dotplace - d.digits.length).toNat '0'
  else
    ds.take d.dotplace.toNat ++ '.' :: ds.drop d.dotplace.toNat

/-- The exponent part of `Decimal.__str__`'s output (`E%+d`, or empty
when the point sits exactly after `leftdigits` digits). -/
def decExpPart (d : PyDecimal) : List Char :=
  if d.leftdigits = d.dotplace then []
  else
    'E' :: (if 0 ≤ d.leftdigits - d.dotplace
            then '+' :: natChars (d.leftdigits - d.dotplace).toNat
            else '-' :: natChars (d.dotplace - d.leftdigits).toNat)

/-- `str(d)` for a finite Python `Decimal`, as a character list. -/
def decChars (d : PyDecimal) : List Char :=
  (if d.sign then ['-'] else []) ++ (decBody d ++ decExpPart d)

/-- `str(d)` for a finite Python `Decimal`. -/
def pyDecStr (d : PyDecimal) : String := String.mk (decChars d)

/-- Strip one leading `-`/`+`, reporting whether the value is negated. -/
def stripSignChar (cs : List Char) : Bool × List Char :=
  match cs with
  | [] => (false, [])
  | c :: tl =>
    if c = '-' then (true, tl)
    else if c = '+' then (false, tl)
    else (false, c :: tl)

/-- Split at the first `E`/`e` exponent marker, if any. -/
def splitAtE : List Char → List Char × Option (List Char)
  | [] => ([], none)
  | c :: tl =>
    if c = 'E' ∨ c = 'e' then ([], some tl)
    else
      let r := splitAtE tl
      (c :: r.1, r.2)

/-- Split at the first `.`, if any. -/
def splitAtDot : List Char → List Char × Option (List Char)
  | [] => ([], none)
  | c :: tl =>
    if c = '.' then ([], some tl)
    else
      let r := splitAtDot tl
      (c :: r.1, r.2)

/-- Parse the exponent group `[-+]?\d+` of a numeric string. -/
def parseExpChars (cs : List Char) : Option Int :=
  let s := stripSignChar cs
  (parseNatChars s.2).map (fun n => if s.1 then -(n : Int) else (n : Int))

/-- `str(int(intpart + fracpart))` as a digit-list operation: drop
leading zeros, mapping the all-zero string to the single digit `0`. -/
def normDigits (ds : List Nat) : List Nat :=
  match ds.dropWhile (fun x => x = 0) with
  | [] => [0]
  | l => l

/-- The `Decimal` string constructor on a finite numeric string, after
the optional sign has been stripped; `none` models `InvalidOperation`. -/
def parseDecCore (sgn : Bool) (cs : List Char) : Option PyDecimal :=
  let me := splitAtE cs
  let ifr := splitAtDot me.1
  match mapOption charDigit ifr.1 with
  | none => none
  | some ipd =>
    let frChars := (ifr.2).getD []
    match mapOption charDigit frChars with
    | none => none
    | some fpd =>
      if ipd = [] ∧ fpd = [] then none
      else
        match me.2 with
        | none => some ⟨sgn, normDigits (ipd ++ fpd), -(frChars.length : Int)⟩
        | some ec =>
          match parseExpChars ec with
          | none => none
          | some e => some ⟨sgn, normDigits (ipd ++ fpd), e - frChars.length⟩

/-- `Decimal(s)` on a finite numeric character list. -/
def parseDecChars (cs : List Char) : Option PyDecimal :=
  let s := stripSignChar cs
  parseDecCore s.1 s.2

/-- `Decimal(s)` on a string. -/
def pyDecimalOfString (s : String) : Option PyDecimal := parseDecChars s.data

/-! ### Round trip of the decimal serialization -/

theorem splitAtE_no_marker {xs : List Char}
    (h : ∀ c ∈ xs, ¬(c = 'E' ∨ c = 'e')) : splitAtE xs = (xs, none) := by
  induction xs with
  | nil => rfl
  | cons c tl ih =>
    have hc := h c (by simp)
    have htl := ih (fun x hx => h x (by simp [hx]))
    simp [splitAtE, hc, htl]

theorem splitAtE_marker {xs t : List Char}
    (h : ∀ c ∈ xs, ¬(c = 'E' ∨ c = 'e')) :
    splitAtE (xs ++ 'E' :: t) = (xs, some t) := by
  induction xs with
  | nil => simp [splitAtE]
  | cons c cs ih =>
    have hc := h c (by simp)
    have htl := ih (fun x hx => h x (by simp [hx]))
    simp [splitAtE, hc, htl]

theorem splitAtDot_no_dot {xs : List Char}
    (h : ∀ c ∈ xs, c ≠ '.') : splitAtDot xs = (xs, none) := by
  induction xs with
  | nil => rfl
  | cons c tl ih =>
    have hc := h c (by simp)
    have htl := ih (fun x hx => h x (by simp [hx]))
    simp [splitAtDot, hc, htl]

theorem splitAtDot_dot {xs tl : List Char}
    (h : ∀ c ∈ xs, c ≠ '.') :
    splitAtDot (xs ++ '.' :: tl) = (xs, some tl) := by
  induction xs with
  | nil => simp [splitAtDot]
  | cons c cs ih =>
    have hc := h c (by simp)
    have htl := ih (fun x hx => h x (by simp [hx]))
    simp [splitAtDot, hc, htl]

theorem normDigits_canon {ds : List Nat}
    (hne : ds ≠ []) (hcanon : ds.head? = some 0 → ds = [0]) :
    normDigits ds = ds := by
  match ds, hne with
  | d :: tl, _ =>
    by_cases h0 : d = 0
    · have := hcanon (by simp [h0])
      simp_all [normDigits]
    · simp [normDigits, List.dropWhile_cons, h0]

theorem dropWhile_replicate_zero_append (k : Nat) (ds : List Nat) :
    (List.replicate k 0 ++ ds).dropWhile (fun x => x = 0) =
      ds.dropWhile (fun x => x = 0) := by
  induction k with
  | zero => simp
  | succ n ih => simp [List.replicate_succ, List.dropWhile_cons, ih]

theorem normDigits_replicate_append {k : Nat} {ds : List Nat}
    (hne : ds ≠ []) (hcanon : ds.head? = some 0 → ds = [0]) :
    normDigits (List.replicate k 0 ++ ds) = ds := by
  rw [normDigits, dropWhile_replicate_zero_append, ← normDigits]
  exact normDigits_canon hne hcanon

theorem parseExpChars_plus (n : Nat) :
    parseExpChars ('+' :: natChars n) = some (n : Int) := by
  simp [parseExpChars, stripSignChar, parseNatChars_natChars]

theorem parseExpChars_minus (n : Nat) :
    parseExpChars ('-' :: natChars n) = some (-(n : Int)) := by
  simp [parseExpChars, stripSignChar, parseNatChars_natChars]

theorem mem_map_digitChar_not_marker {l : List Nat} (hlt : ∀ x ∈ l, x < 10) :
    ∀ c ∈ l.map digitChar, ¬(c = 'E' ∨ c = 'e') := by
  intro c hc
  obtain ⟨x, hx, rfl⟩ := List.mem_map.mp hc
  have h := digitChar_ne_special (hlt x hx)
  tauto

theorem mem_map_digitChar_not_dot {l : List Nat} (hlt : ∀ x ∈ l, x < 10) :
    ∀ c ∈ l.map digitChar, c ≠ '.' := by
  intro c hc
  obtain ⟨x, hx, rfl⟩ := List.mem_map.mp hc
  exact (digitChar_ne_special (hlt x hx)).2.2.1

theorem parseDecCore_body (d : PyDecimal) (h : d.Valid) :
    parseDecCore d.sign (decBody d ++ decExpPart d) = some d := by
  obtain ⟨hne, hlt, hcanon⟩ := h
  by_cases hsc : d.exp ≤ 0 ∧ -6 < d.leftdigits
  · -- no exponent part: dotplace = leftdigits
    have hdp : d.dotplace = d.leftdigits := by simp [PyDecimal.dotplace, hsc]
    have hep : decExpPart d = [] := by simp [decExpPart, hdp]
    rw [hep, List.append_nil]
    by_cases hdp0 : d.dotplace ≤ 0
    · -- case A: 0.000ddd
      have hbody : decBody d =
          '0' :: '.' :: (List.replicate (-d.dotplace).toNat '0' ++ d.digits.map digitChar) := by
        simp [decBody, hdp0]
      rw [hbody]
      have hzd : List.replicate (-d.dotplace).toNat '0' ++ d.digits.map digitChar =
          (List.replicate (-d.dotplace).toNat 0 ++ d.digits).map digitChar := by
        rw [List.map_append, List.map_replicate]
        rfl
      have hnomark : ∀ c ∈ ('0' :: '.' ::
          (List.replicate (-d.dotplace).toNat '0' ++ d.digits.map digitChar)),
          ¬(c = 'E' ∨ c = 'e') := by
        intro c hc
        simp only [List.mem_cons] at hc
        rcases hc with rfl | rfl | hc
        · decide
        · decide
        · rw [hzd] at hc
          refine mem_map_digitChar_not_marker ?_ c hc
          intro x hx
          rcases List.mem_append.mp hx with hx | hx
          · have := List.eq_of_mem_replicate hx; omega
          · exact hlt x hx
      have hE := splitAtE_no_marker hnomark
      have hDot : splitAtDot ('0' :: '.' ::
          (List.replicate (-d.dotplace).toNat '0' ++ d.digits.map digitChar)) =
          (['0'], some (List.replicate (-d.dotplace).toNat '0' ++ d.digits.map digitChar)) := by
        have : ('0' : Char) :: '.' ::
            (List.replicate (-d.dotplace).toNat '0' ++ d.digits.map digitChar) =
            ['0'] ++ '.' :: (List.replicate (-d.dotplace).toNat '0' ++ d.digits.map digitChar) := rfl
        rw [this]
        exact splitAtDot_dot (by decide)
      rw [parseDecCore]
      have hall : ∀ x ∈ List.replicate (-d.dotplace).toNat 0 ++ d.digits, x < 10 := by
        intro x hx
        rcases List.mem_append.mp hx with hx | hx
        · have := List.eq_of_mem_replicate hx; omega
        · exact hlt x hx
      have hmap : mapOption charDigit
          (List.replicate (-d.dotplace).toNat '0' ++ List.map digitChar d.digits) =
          some (List.replicate (-d.dotplace).toNat 0 ++ d.digits) := by
        rw [hzd]; exact mapOption_charDigit_digitChar hall
      have h0 : mapOption charDigit ['0'] = some [0] := by decide
      simp only [hE, hDot, Option.getD_some, h0, hmap]
      have hguard : ¬(([0] : List Nat) = ([] : List Nat) ∧
          List.replicate (-d.dotplace).toNat 0 ++ d.digits = []) := by simp
      rw [if_neg hguard]
      have hnorm : normDigits ([0] ++ (List.replicate (-d.dotplace).toNat 0 ++ d.digits)) =
          d.digits := by
        have he : ([0] : List Nat) ++ (List.replicate (-d.dotplace).toNat 0 ++ d.digits) =
            List.replicate ((-d.dotplace).toNat + 1) 0 ++ d.digits := by
          rw [List.replicate_succ]
          rfl
        rw [he]
        exact normDigits_replicate_append hne hcanon
      have hexp : -(((List.replicate (-d.dotplace).toNat '0' ++
          List.map digitChar d.digits)).length : Int) = d.exp := by
        simp only [List.length_map, List.length_append, List.length_replicate]
        have h1 : ((-d.dotplace).toNat : Int) = -d.dotplace := Int.toNat_of_nonneg (by omega)
        have h2 : d.dotplace = d.exp + d.digits.length := by
          rw [hdp]; rfl
        push_cast
        omega
      rw [hnorm, hexp]
    · -- dotplace > 0, no exponent part
      have hlen1 : 1 ≤ d.digits.length := List.length_pos.mpr hne
      have hdpL : d.dotplace = d.exp + d.digits.length := by
        rw [hdp]; rfl
      by_cases hlen : (d.digits.length : Int) ≤ d.dotplace
      · -- case B: all digits left of the point, exponent 0
        have hexp0 : d.exp = 0 := by omega
        have hrep : (d.dotplace - d.digits.length).toNat = 0 := by omega
        have hbody : decBody d = d.digits.map digitChar := by
          simp [decBody, hdp0, hlen, hrep]
        rw [hbody]
        have hE := splitAtE_no_marker (mem_map_digitChar_not_marker hlt)
        have hDot := splitAtDot_no_dot (mem_map_digitChar_not_dot hlt)
        rw [parseDecCore]
        have hmape : mapOption charDigit ([] : List Char) = some [] := rfl
        simp only [hE, hDot, Option.getD_none, hmape,
          mapOption_charDigit_digitChar hlt]
        have hguard : ¬(d.digits = [] ∧ True) := by
          simp [hne]
        rw [if_neg hguard]
        have hnorm : normDigits (d.digits ++ []) = d.digits := by
          rw [List.append_nil]
          exact normDigits_canon hne hcanon
        have hexp : -((([] : List Char)).length : Int) = d.exp := by
          simp [hexp0]
        rw [hnorm, hexp]
      · -- case C: point inside the digit string
        have hbody : decBody d =
            (d.digits.map digitChar).take d.dotplace.toNat ++
              '.' :: (d.digits.map digitChar).drop d.dotplace.toNat := by
          simp [decBody, hdp0, hlen]
        rw [hbody]
        have htake_sub := List.take_subset d.dotplace.toNat (d.digits.map digitChar)
        have hdrop_sub := List.drop_subset d.dotplace.toNat (d.digits.map digitChar)
        have hnomark : ∀ c ∈ (d.digits.map digitChar).take d.dotplace.toNat ++
            '.' :: (d.digits.map digitChar).drop d.dotplace.toNat,
            ¬(c = 'E' ∨ c = 'e') := by
          intro c hc
          simp only [List.mem_append, List.mem_cons] at hc
          rcases hc with hc | rfl | hc
          · exact mem_map_digitChar_not_marker hlt c (htake_sub hc)
          · decide
          · exact mem_map_digitChar_not_marker hlt c (hdrop_sub hc)
        have hE := splitAtE_no_marker hnomark
        have hDot : splitAtDot ((d.digits.map digitChar).take d.dotplace.toNat ++
            '.' :: (d.digits.map digitChar).drop d.dotplace.toNat) =
            ((d.digits.map digitChar).take d.dotplace.toNat,
              some ((d.digits.map digitChar).drop d.dotplace.toNat)) :=
          splitAtDot_dot (fun c hc => mem_map_digitChar_not_dot hlt c (htake_sub hc))
        rw [parseDecCore]
        have hmapt : mapOption charDigit ((d.digits.map digitChar).take d.dotplace.toNat) =
            some (d.digits.take d.dotplace.toNat) := by
          rw [← List.map_take]
          exact mapOption_charDigit_digitChar
            (fun x hx => hlt x (List.take_subset _ _ hx))
        have hmapd : mapOption charDigit ((d.digits.map digitChar).drop d.dotplace.toNat) =
            some (d.digits.drop d.dotplace.toNat) := by
          rw [← List.map_drop]
          exact mapOption_charDigit_digitChar
            (fun x hx => hlt x (List.drop_subset _ _ hx))
        simp only [hE, hDot, Option.getD_some, hmapt, hmapd]
        have htne : d.digits.take d.dotplace.toNat ≠ [] := by
          rw [ne_eq, List.take_eq_nil_iff]
          push_neg
          constructor
          · omega
          · exact hne
        have hguard : ¬(d.digits.take d.dotplace.toNat = [] ∧
            d.digits.drop d.dotplace.toNat = []) := by
          intro hcon
          exact htne hcon.1
        rw [if_neg hguard]
        have hnorm : normDigits (d.digits.take d.dotplace.toNat ++
            d.digits.drop d.dotplace.toNat) = d.digits := by
          rw [List.take_append_drop]
          exact normDigits_canon hne hcanon
        have hexp : -((((d.digits.map digitChar).drop d.dotplace.toNat)).length : Int) =
            d.exp := by
          simp only [List.length_drop, List.length_map]
          have h1 : (d.dotplace.toNat : Int) = d.dotplace := Int.toNat_of_nonneg (by omega)
          omega
        rw [hnorm, hexp]
  · -- scientific notation: dotplace = 1, explicit exponent part
    have hlen1 : 1 ≤ d.digits.length := List.length_pos.mpr hne
    have hdp1 : d.dotplace = 1 := by
      rw [PyDecimal.dotplace, if_neg hsc]
    have hLd : d.leftdigits = d.exp + d.digits.length := rfl
    have hL1 : d.leftdigits ≠ 1 := by
      intro hL
      exact hsc ⟨by omega, by omega⟩
    have hdp0 : ¬d.dotplace ≤ 0 := by omega
    have hep : decExpPart d =
        'E' :: (if 0 ≤ d.leftdigits - d.dotplace
                then '+' :: natChars (d.leftdigits - d.dotplace).toNat
                else '-' :: natChars (d.dotplace - d.leftdigits).toNat) := by
      rw [decExpPart, if_neg (by rw [hdp1]; exact hL1)]
    have hrest : parseExpChars (if 0 ≤ d.leftdigits - d.dotplace
        then '+' :: natChars (d.leftdigits - d.dotplace).toNat
        else '-' :: natChars (d.dotplace - d.leftdigits).toNat) =
        some (d.leftdigits - 1) := by
      by_cases h0 : 0 ≤ d.leftdigits - d.dotplace
      · rw [if_pos h0, parseExpChars_plus, Int.toNat_of_nonneg h0, hdp1]
      · rw [if_neg h0, parseExpChars_minus, Int.toNat_of_nonneg (by omega)]
        rw [hdp1]
        congr 1
        omega
    rw [hep]
    by_cases hlen : (d.digits.length : Int) ≤ d.dotplace
    · -- case D: a single digit before the exponent marker
      have hlen_eq : d.digits.length = 1 := by omega
      have hrep : (d.dotplace - d.digits.length).toNat = 0 := by omega
      have hbody : decBody d = d.digits.map digitChar := by
        simp [decBody, hdp0, hlen, hrep]
      rw [hbody]
      have hE := splitAtE_marker (t := (if 0 ≤ d.leftdigits - d.dotplace
          then '+' :: natChars (d.leftdigits - d.dotplace).toNat
          else '-' :: natChars (d.dotplace - d.leftdigits).toNat))
        (mem_map_digitChar_not_marker hlt)
      have hDot := splitAtDot_no_dot (mem_map_digitChar_not_dot hlt)
      rw [parseDecCore]
      have hmape : mapOption charDigit ([] : List Char) = some [] := rfl
      simp only [hE, hDot, Option.getD_none, hmape,
        mapOption_charDigit_digitChar hlt, hrest]
      have hguard : ¬(d.digits = [] ∧ True) := by simp [hne]
      rw [if_neg hguard]
      have hnorm : normDigits (d.digits ++ []) = d.digits := by
        rw [List.append_nil]
        exact normDigits_canon hne hcanon
      have hexp : d.leftdigits - 1 - ((([] : List Char)).length : Int) = d.exp := by
        simp only [List.length_nil, Nat.cast_zero, sub_zero]
        omega
      rw [hnorm, hexp]
    · -- case E: point after the first digit, explicit exponent
      have hbody : decBody d =
          (d.digits.map digitChar).take d.dotplace.toNat ++
            '.' :: (d.digits.map digitChar).drop d.dotplace.toNat := by
        simp [decBody, hdp0, hlen]
      rw [hbody]
      have htake_sub := List.take_subset d.dotplace.toNat (d.digits.map digitChar)
      have hdrop_sub := List.drop_subset d.dotplace.toNat (d.digits.map digitChar)
      have hnomark : ∀ c ∈ (d.digits.map digitChar).take d.dotplace.toNat ++
          '.' :: (d.digits.map digitChar).drop d.dotplace.toNat,
          ¬(c = 'E' ∨ c = 'e') := by
        intro c hc
        simp only [List.mem_append, List.mem_cons] at hc
        rcases hc with hc | rfl | hc
        · exact mem_map_digitChar_not_marker hlt c (htake_sub hc)
        · decide
        · exact mem_map_digitChar_not_marker hlt c (hdrop_sub hc)
      have hE := splitAtE_marker (t := (if 0 ≤ d.leftdigits - d.dotplace
          then '+' :: natChars (d.leftdigits - d.dotplace).toNat
          else '-' :: natChars (d.dotplace - d.leftdigits).toNat)) hnomark
      have hDot : splitAtDot ((d.digits.map digitChar).take d.dotplace.toNat ++
          '.' :: (d.digits.map digitChar).drop d.dotplace.toNat) =
          ((d.digits.map digitChar).take d.dotplace.toNat,
            some ((d.digits.map digitChar).drop d.dotplace.toNat)) :=
        splitAtDot_dot (fun c hc => mem_map_digitChar_not_dot hlt c (htake_sub hc))
      rw [parseDecCore]
      have hmapt : mapOption charDigit ((d.digits.map digitChar).take d.dotplace.toNat) =
          some (d.digits.take d.dotplace.toNat) := by
        rw [← List.map_take]
        exact mapOption_charDigit_digitChar
          (fun x hx => hlt x (List.take_subset _ _ hx))
      have hmapd : mapOption charDigit ((d.digits.map digitChar).drop d.dotplace.toNat) =
          some (d.digits.drop d.dotplace.toNat) := by
        rw [← List.map_drop]
        exact mapOption_charDigit_digitChar
          (fun x hx => hlt x (List.drop_subset _ _ hx))
      simp only [hE, hDot, Option.getD_some, hmapt, hmapd, hrest]
      have htne : d.digits.take d.dotplace.toNat ≠ [] := by
        rw [ne_eq, List.take_eq_nil_iff]
        push_neg
        constructor
        · omega
        · exact hne
      have hguard : ¬(d.digits.take d.dotplace.toNat = [] ∧
          d.digits.drop d.dotplace.toNat = []) := by
        intro hcon
        exact htne hcon.1
      rw [if_neg hguard]
      have hnorm : normDigits (d.digits.take d.dotplace.toNat ++
          d.digits.drop d.dotplace.toNat) = d.digits := by
        rw [List.take_append_drop]
        exact normDigits_canon hne hcanon
      have hexp : d.leftdigits - 1 -
          ((((d.digits.map digitChar).drop d.dotplace.toNat)).length : Int) = d.exp := by
        simp only [List.length_drop, List.length_map]
        have h1 : (d.dotplace.toNat : Int) = d.dotplace := Int.toNat_of_nonneg (by omega)
        omega
      rw [hnorm, hexp]

theorem decBody_head_digit (d : PyDecimal) (hne : d.digits ≠ [])
    (hlt : ∀ x ∈ d.digits, x < 10) :
    ∃ x tl, decBody d = digitChar x :: tl ∧ x < 10 := by
  obtain ⟨d0, rest, hds⟩ := List.exists_cons_of_ne_nil hne
  have hd0 : d0 < 10 := hlt d0 (by simp [hds])
  by_cases hdp0 : d.dotplace ≤ 0
  · refine ⟨0, '.' :: (List.replicate (-d.dotplace).toNat '0' ++ d.digits.map digitChar),
      ?_, by omega⟩
    have h0 : digitChar 0 = '0' := by decide
    simp [decBody, hdp0, h0]
  · by_cases hlen : (d.digits.length : Int) ≤ d.dotplace
    · refine ⟨d0, rest.map digitChar ++
        List.replicate (d.dotplace - d.digits.length).toNat '0', ?_, hd0⟩
      simp only [decBody, if_neg hdp0, if_pos hlen]
      rw [hds]
      simp only [List.map_cons, List.cons_append]
    · obtain ⟨k, hk⟩ : ∃ k, d.dotplace.toNat = k + 1 := ⟨d.dotplace.toNat - 1, by omega⟩
      refine ⟨d0, (rest.map digitChar).take k ++
        '.' :: (d.digits.map digitChar).drop d.dotplace.toNat, ?_, hd0⟩
      simp only [decBody, if_neg hdp0, if_neg hlen]
      rw [hds]
      simp only [List.map_cons, hk, List.take_succ_cons]
      rfl

theorem parseDecChars_decChars (d : PyDecimal) (h : d.Valid) :
    parseDecChars (decChars d) = some d := by
  obtain ⟨hne, hlt, hcanon⟩ := h
  obtain ⟨x, tl, hbody, hx⟩ := decBody_head_digit d hne hlt
  have hspec := digitChar_ne_special hx
  have hbe : decBody d ++ decExpPart d = digitChar x :: (tl ++ decExpPart d) := by
    rw [hbody]
    rfl
  by_cases hsgn : d.sign = true
  · have hcs : decChars d = '-' :: (decBody d ++ decExpPart d) := by
      rw [decChars, if_pos hsgn]
      rfl
    rw [parseDecChars, hcs]
    simp only [stripSignChar, if_pos rfl]
    rw [← hsgn]
    exact parseDecCore_body d ⟨hne, hlt, hcanon⟩
  · have hsf : d.sign = false := by simpa using hsgn
    have hcs : decChars d = digitChar x :: (tl ++ decExpPart d) := by
      rw [decChars, if_neg (by simp [hsf]), List.nil_append, hbe]
    rw [parseDecChars, hcs]
    simp only [stripSignChar, if_neg hspec.2.2.2.1, if_neg hspec.2.2.2.2]
    rw [← hbe, ← hsf]
    exact parseDecCore_body d ⟨hne, hlt, hcanon⟩

theorem pyDecimal_roundtrip (d : PyDecimal) (h : d.Valid) :
    pyDecimalOfString (pyDecStr d) = some d := by
  rw [pyDecimalOfString, pyDecStr]
  exact parseDecChars_decChars d h

/-! ## Python `datetime.datetime`

Loan dates and change-record timestamps are serialized with
`datetime.isoformat()` and parsed back with `datetime.fromisoformat`. -/

/-- Python's Gregorian leap-year test (`calendar.isleap`). -/
def isLeapYear (y : Nat) : Bool :=
  y % 4 = 0 && (y % 100 ≠ 0 || y % 400 = 0)

/-- Days in a month of a given year, as validated by `datetime`. -/
def daysInMonth (y m : Nat) : Nat :=
  if m = 2 then (if isLeapYear y then 29 else 28)
  else if m = 4 ∨ m = 6 ∨ m = 9 ∨ m = 11 then 30
  else 31

/-- A naive Python `datetime.datetime` (no timezone). -/
structure PyDatetime where
  year : Nat
  month : Nat
  day : Nat
  hour : Nat
  minute : Nat
  second : Nat
  microsecond : Nat
deriving DecidableEq

/-- The field ranges `datetime.datetime` enforces at construction. -/
def PyDatetime.Valid (t : PyDatetime) : Prop :=
  1 ≤ t.year ∧ t.year ≤ 9999 ∧ 1 ≤ t.month ∧ t.month ≤ 12 ∧
    1 ≤ t.day ∧ t.day ≤ daysInMonth t.year t.month ∧
    t.hour ≤ 23 ∧ t.minute ≤ 59 ∧ t.second ≤ 59 ∧ t.microsecond ≤ 999999

instance (t : PyDatetime) : Decidable t.Valid := by
  unfold PyDatetime.Valid; infer_instance

/-- `datetime.isoformat()` for a naive datetime:
`YYYY-MM-DDTHH:MM:SS`, with `.ffffff` appended when the microsecond
field is non-zero. -/
def isoformatChars (t : PyDatetime) : List Char :=
  digitChar (t.year / 1000 % 10) :: digitChar (t.year / 100 % 10) ::
  digitChar (t.year / 10 % 10) :: digitChar (t.year % 10) :: '-' ::
  digitChar (t.month / 10 % 10) :: digitChar (t.month % 10) :: '-' ::
  digitChar (t.day / 10 % 10) :: digitChar (t.day % 10) :: 'T' ::
  digitChar (t.hour / 10 % 10) :: digitChar (t.hour % 10) :: ':' ::
  digitChar (t.minute / 10 % 10) :: digitChar (t.minute % 10) :: ':' ::
  digitChar (t.second / 10 % 10) :: digitChar (t.second % 10) ::
  (if t.microsecond = 0 then []
   else '.' :: digitChar (t.microsecond / 100000 % 10) ::
     digitChar (t.microsecond / 10000 % 10) ::
     digitChar (t.microsecond / 1000 % 10) ::
     digitChar (t.microsecond / 100 % 10) ::
     digitChar (t.microsecond / 10 % 10) ::
     digitChar (t.microsecond % 10) :: [])

/-- `datetime.isoformat()` as a string. -/
def pyIsoformat (t : PyDatetime) : String := String.mk (isoformatChars t)

/-- Value of two digit characters. -/
def dig2 (a b : Char) : Option Nat :=
  match charDigit a, charDigit b with
  | some x, some y => some (x * 10 + y)
  | _, _ => none

/-- Value of four digit characters. -/
def dig4 (a b c d : Char) : Option Nat :=
  match dig2 a b, dig2 c d with
  | some x, some y => some (x * 100 + y)
  | _, _ => none

/-- Value of six digit characters. -/
def dig6 (a b c d e f : Char) : Option Nat :=
  match dig2 a b, dig2 c d, dig2 e f with
  | some x, some y, some z => some (x * 10000 + y * 100 + z)
  | _, _, _ => none

/-- The `datetime` constructor's range validation; the caller supplies a
four-digit year and six-digit microsecond, so those upper bounds hold. -/
def mkDatetimeChecked (y mo d h mi s us : Nat) : Option PyDatetime :=
  if 1 ≤ y ∧ 1 ≤ mo ∧ mo ≤ 12 ∧ 1 ≤ d ∧ d ≤ daysInMonth y mo ∧
      h ≤ 23 ∧ mi ≤ 59 ∧ s ≤ 59 then
    some ⟨y, mo, d, h, mi, s, us⟩
  else none

/-- `datetime.fromisoformat` on the strings `datetime.isoformat()` emits
for naive datetimes (date, `T`, time, optional 6-digit fraction);
`none` models `ValueError`. -/
def fromisoformatChars (cs : List Char) : Option PyDatetime :=
  match cs with
  | y1 :: y2 :: y3 :: y4 :: s1 :: m1 :: m2 :: s2 :: d1 :: d2 :: sep ::
      h1 :: h2 :: c1 :: n1 :: n2 :: c2 :: x1 :: x2 :: rest =>
    if s1 = '-' ∧ s2 = '-' ∧ sep = 'T' ∧ c1 = ':' ∧ c2 = ':' then
      match dig4 y1 y2 y3 y4, dig2 m1 m2, dig2 d1 d2,
          dig2 h1 h2, dig2 n1 n2, dig2 x1 x2 with
      | some y, some mo, some dd, some h, some mi, some s =>
        match rest with
        | [] => mkDatetimeChecked y mo dd h mi s 0
        | dot :: u1 :: u2 :: u3 :: u4 :: u5 :: u6 :: [] =>
          if dot = '.' then
            match dig6 u1 u2 u3 u4 u5 u6 with
            | some us => mkDatetimeChecked y mo dd h mi s us
            | none => none
          else none
        | _ => none
      | _, _, _, _, _, _ => none
    else none
  | _ => none

/-- `datetime.fromisoformat` on a string. -/
def pyFromisoformat (s : String) : Option PyDatetime := fromisoformatChars s.data

theorem dig2_digitChar {n : Nat} (h : n < 100) :
    dig2 (digitChar (n / 10 % 10)) (digitChar (n % 10)) = some n := by
  rw [dig2, charDigit_digitChar (by omega), charDigit_digitChar (by omega)]
  simp only [Option.some_inj]
  omega

theorem dig4_digitChar {n : Nat} (h : n < 10000) :
    dig4 (digitChar (n / 1000 % 10)) (digitChar (n / 100 % 10))
      (digitChar (n / 10 % 10)) (digitChar (n % 10)) = some n := by
  rw [dig4, dig2, dig2, charDigit_digitChar (by omega), charDigit_digitChar (by omega),
    charDigit_digitChar (by omega), charDigit_digitChar (by omega)]
  simp only [Option.some_inj]
  omega

theorem dig6_digitChar {n : Nat} (h : n < 1000000) :
    dig6 (digitChar (n / 100000 % 10)) (digitChar (n / 10000 % 10))
      (digitChar (n / 1000 % 10)) (digitChar (n / 100 % 10))
      (digitChar (n / 10 % 10)) (digitChar (n % 10)) = some n := by
  rw [dig6, dig2, dig2, dig2, charDigit_digitChar (by omega), charDigit_digitChar (by omega),
    charDigit_digitChar (by omega), charDigit_digitChar (by omega),
    charDigit_digitChar (by omega), charDigit_digitChar (by omega)]
  simp only [Option.some_inj]
  omega

theorem fromisoformat_isoformat (t : PyDatetime) (h : t.Valid) :
    fromisoformatChars (isoformatChars t) = some t := by
  obtain ⟨hy1, hy2, hm1, hm2, hd1, hd2, hh, hmi, hs, hus⟩ := h
  have hy4 := dig4_digitChar (n := t.year) (by omega)
  have hmo := dig2_digitChar (n := t.month) (by omega)
  have hdd := dig2_digitChar (n := t.day) (by
    have : daysInMonth t.year t.month ≤ 31 := by
      rw [daysInMonth]
      split
      · split <;> omega
      · split <;> omega
    omega)
  have hho := dig2_digitChar (n := t.hour) (by omega)
  have hmin := dig2_digitChar (n := t.minute) (by omega)
  have hsec := dig2_digitChar (n := t.second) (by omega)
  have hcheck : mkDatetimeChecked t.year t.month t.day t.hour t.minute t.second
      t.microsecond = some t := by
    rw [mkDatetimeChecked, if_pos (by exact ⟨hy1, hm1, hm2, hd1, hd2, hh, hmi, hs⟩)]
  by_cases h0 : t.microsecond = 0
  · rw [isoformatChars, if_pos h0]
    simp only [fromisoformatChars]
    rw [if_pos (by simp)]
    simp only [hy4, hmo, hdd, hho, hmin, hsec]
    rw [← h0]
    exact hcheck
  · rw [isoformatChars, if_neg h0]
    have hu6 := dig6_digitChar (n := t.microsecond) (by omega)
    simp only [fromisoformatChars]
    rw [if_pos (by simp)]
    simp only [hy4, hmo, hdd, hho, hmin, hsec]
    rw [if_pos (by simp)]
    simp only [hu6]
    exact hcheck

theorem pyDatetime_roundtrip (t : PyDatetime) (h : t.Valid) :
    pyFromisoformat (pyIsoformat t) = some t := by
  rw [pyFromisoformat, pyIsoformat]
  exact fromisoformat_isoformat t h


/-! ## The Assets app: `Product`

`products/entity/product.py`, `products/repository/product_repository.py`
and `products/manager/product_manager.py`. -/

/-- `ProductId`: a branded wrapper around a string SKU with value-based
(dataclass) equality. -/
structure ProductId where
  value : String
deriving DecidableEq

/-- The `Product` entity. -/
structure Product where
  id : ProductId
  name : String
  category : String
  in_stock : Int
  price : PyDecimal
  description : String
  active : Bool
deriving DecidableEq

/-- A product as stored on disk: one flat JSON object
(`ProductParser.from_product_to_dict`'s schema, `price` as a string). -/
structure ProductRecord where
  id : String
  name : String
  category : String
  inStock : Int
  price : String
  description : String
  active : Bool
deriving DecidableEq

/-- `ProductParser.from_product_to_dict`. -/
def from_product_to_dict (p : Product) : ProductRecord :=
  { id := p.id.value, name := p.name, category := p.category,
    inStock := p.in_stock, price := pyDecStr p.price,
    description := p.description, active := p.active }

/-- `ProductParser.from_dict_to_product`; `none` models the
`ValueError`/`InvalidOperation` a malformed price raises. -/
def from_dict_to_product (r : ProductRecord) : Option Product :=
  match pyDecimalOfString r.price with
  | none => none
  | some pr =>
    some { id := ⟨r.id⟩, name := r.name, category := r.category,
           in_stock := r.inStock, price := pr, description := r.description,
           active := r.active }

/-- A product is valid when its price is a well-formed finite `Decimal`
(the invariant Python maintains for every `Decimal` it constructs). -/
def Product.Valid (p : Product) : Prop := p.price.Valid

instance (p : Product) : Decidable p.Valid := by
  unfold Product.Valid; infer_instance

theorem from_dict_from_product (p : Product) (h : p.Valid) :
    from_dict_to_product (from_product_to_dict p) = some p := by
  rw [from_dict_to_product, from_product_to_dict]
  simp only [pyDecimal_roundtrip p.price h]

/-- The product JSON file: `none` models an absent file. -/
abbrev ProductFile := Option (List ProductRecord)

namespace ProductRepository

/-- `ProductRepository.save_all`: serialize and overwrite the whole file. -/
def save_all (entities : List Product) : ProductFile :=
  some (entities.map from_product_to_dict)

/-- `ProductRepository.get_all`: `[]` for an absent file, else parse every
record; an outer `none` models a propagated parse exception. -/
def get_all (f : ProductFile) : Option (List Product) :=
  match f with
  | none => some []
  | some recs => mapOption from_dict_to_product recs

/-- The `for` loop of `get_by_id`: first product whose id value matches. -/
def findFirstById (i : ProductId) (ps : List Product) : Option Product :=
  findFirstSuch (fun p => p.id.value == i.value) ps

/-- `ProductRepository.get_by_id`: opens the file directly (raising
`FileNotFoundError`, the outer `none`, when it is absent), parses every
record, then scans linearly. -/
def get_by_id (i : ProductId) (f : ProductFile) : Option (Option Product) :=
  match f with
  | none => none
  | some recs =>
    match mapOption from_dict_to_product recs with
    | none => none
    | some ps => some (findFirstById i ps)

/-- The `for` loop of `update`: replace the first entity with a matching
id, reporting `none` when no record matched. -/
def updateLoop (e : Product) (ps : List Product) : Option (List Product) :=
  replaceFirstIf (fun p => p.id == e.id) e ps

/-- `ProductRepository.update`: re-read, replace the first id match and
rewrite the whole file; a silent no-op when nothing matches. -/
def update (e : Product) (f : ProductFile) : Option ProductFile :=
  match get_all f with
  | none => none
  | some ps =>
    match updateLoop e ps with
    | some ps2 => some (save_all ps2)
    | none => some f

/-- `ProductRepository.delete`: re-read, clear the `active` flag of every
record whose id value matches, and always rewrite the file. -/
def delete (i : ProductId) (f : ProductFile) : Option ProductFile :=
  match get_all f with
  | none => none
  | some ps =>
    some (save_all (ps.map fun p =>
      if p.id.value = i.value then { p with active := false } else p))

end ProductRepository

/-- A `ProductManager`: the backing file plus the in-memory cache. -/
structure ProductManagerState where
  file : ProductFile
  products : List Product
deriving DecidableEq

namespace ProductManager

/-- `ProductManager.__init__`: store the repository and `load_data`. -/
def init (f : ProductFile) : Option ProductManagerState :=
  match ProductRepository.get_all f with
  | none => none
  | some ps => some ⟨f, ps⟩

/-- `ProductManager.save_data`: persist the cache, then `load_data`. -/
def save_data (st : ProductManagerState) : Option ProductManagerState :=
  let f2 := ProductRepository.save_all st.products
  match ProductRepository.get_all f2 with
  | none => none
  | some ps => some ⟨f2, ps⟩

/-- `ProductManager.create_product`: append to the cache and `save_data`. -/
def create_product (p : Product) (st : ProductManagerState) :
    Option ProductManagerState :=
  save_data { st with products := st.products ++ [p] }

/-- `ProductManager.update_product`: repository `update`, then reload. -/
def update_product (p : Product) (st : ProductManagerState) :
    Option ProductManagerState :=
  match ProductRepository.update p st.file with
  | none => none
  | some f2 =>
    match ProductRepository.get_all f2 with
    | none => none
    | some ps => some ⟨f2, ps⟩

/-- `ProductManager.delete_product`: on interactive confirmation, delete
by id and reload; otherwise nothing happens. -/
def delete_product (confirm : Bool) (p : Product) (st : ProductManagerState) :
    Option ProductManagerState :=
  if confirm then
    match ProductRepository.delete p.id st.file with
    | none => none
    | some f2 =>
      match ProductRepository.get_all f2 with
      | none => none
      | some ps => some ⟨f2, ps⟩
  else some st

/-- `ProductManager.delete_product_stock`.  Returns the new state, the
boolean result, and whether the low-stock alert was printed. -/
def delete_product_stock (p : Product) (amount : Int) (st : ProductManagerState) :
    Option (ProductManagerState × Bool × Bool) :=
  if p.in_stock < amount then some (st, false, false)
  else
    let p2 : Product := { p with in_stock := p.in_stock - amount }
    let alert := decide (p2.in_stock ≤ 1)
    match update_product p2 st with
    | none => none
    | some st2 => some (st2, true, alert)

/-- `ProductManager.add_product_stock`: raise the stock and persist. -/
def add_product_stock (p : Product) (amount : Int) (st : ProductManagerState) :
    Option ProductManagerState :=
  update_product { p with in_stock := p.in_stock + amount } st

end ProductManager


/-! ## Product filtering (`ProductManager.get_products_by_filter`) -/

/-- Model of `str.casefold` (single-character folding). -/
def pyCasefold (s : String) : String := String.map Char.toLower s

/-- Whether `pat` is a prefix of `s`. -/
def startsWithChars : List Char → List Char → Bool
  | [], _ => true
  | _ :: _, [] => false
  | p :: ps, c :: cs => p == c && startsWithChars ps cs

/-- Python's `pat in s` on strings: contiguous-substring containment. -/
def containsSub (pat : List Char) : List Char → Bool
  | [] => startsWithChars pat []
  | c :: cs => startsWithChars pat (c :: cs) || containsSub pat cs

/-- `_match_text`: `True` when the query is absent; otherwise substring
or exact comparison after optional case folding. -/
def matchText (caseInsensitive partialMatch : Bool) (value : String)
    (query : Option String) : Bool :=
  match query with
  | none => true
  | some q =>
    let v := if caseInsensitive then pyCasefold value else value
    let qq := if caseInsensitive then pyCasefold q else q
    if partialMatch then containsSub qq.data v.data else v == qq

/-- `_match_bool`: `True` when the query is absent, exact match else. -/
def matchBool (value : Bool) (query : Option Bool) : Bool :=
  match query with
  | none => true
  | some q => value == q

/-- The signed integer value of a decimal's coefficient. -/
def PyDecimal.mant (d : PyDecimal) : Int :=
  (if d.sign then -1 else 1) * (digitsVal d.digits : Int)

/-- Numeric `≤` on Python decimals (cross-scaled integer comparison). -/
def decLe (a b : PyDecimal) : Bool :=
  let m := min a.exp b.exp
  decide (a.mant * 10 ^ (a.exp - m).toNat ≤ b.mant * 10 ^ (b.exp - m).toNat)

/-- The conjunction of per-field checks applied to one product inside
`get_products_by_filter`'s loop, in source order; a `continue` in the
loop is a `false` here. -/
def productMatches (category name : Option String)
    (description : Option String) (active : Option Bool)
    (min_price max_price : Option PyDecimal) (min_stock max_stock : Option Int)
    (idq : Option ProductId) (id_contains : Option String)
    (partialMatch caseInsensitive : Bool) (p : Product) : Bool :=
  (match idq with
   | none => true
   | some i => p.id == i) &&
  matchText caseInsensitive partialMatch p.id.value id_contains &&
  matchText caseInsensitive partialMatch p.category category &&
  matchText caseInsensitive partialMatch p.name name &&
  matchText caseInsensitive partialMatch p.description description &&
  matchBool p.active active &&
  ((match min_price with
    | none => true
    | some lo => decLe lo p.price) &&
   (match max_price with
    | none => true
    | some hi => decLe p.price hi)) &&
  ((match min_stock with
    | none => true
    | some lo => decide (lo ≤ p.in_stock)) &&
   (match max_stock with
    | none => true
    | some hi => decide (p.in_stock ≤ hi)))

/-- `ProductManager.get_products_by_filter` over the in-memory cache. -/
def get_products_by_filter (category name : Option String)
    (description : Option String) (active : Option Bool)
    (min_price max_price : Option PyDecimal) (min_stock max_stock : Option Int)
    (idq : Option ProductId) (id_contains : Option String)
    (partialMatch caseInsensitive : Bool) (products : List Product) :
    List Product :=
  products.filter (productMatches category name description active
    min_price max_price min_stock max_stock idq id_contains
    partialMatch caseInsensitive)

/-! ## The Library app: `Book`

`book/book.py`, `book/book_parser.py`, `book/book_repository.py`,
`book/book_manager.py`. -/

/-- The `Book` entity (`release_year` is the `year` property). -/
structure Book where
  id : Int
  title : String
  author : String
  year : String
  available : Bool
deriving DecidableEq

/-- A book as stored on disk (`BookParser.from_book_to_dict`). -/
structure BookRecord where
  id : Int
  title : String
  author : String
  year : String
  available : Bool
deriving DecidableEq

/-- `BookParser.from_book_to_dict`. -/
def from_book_to_dict (b : Book) : BookRecord :=
  { id := b.id, title := b.title, author := b.author, year := b.year,
    available := b.available }

/-- `BookParser.from_dic_to_book` (a total field-for-field mapping). -/
def from_dic_to_book (r : BookRecord) : Book :=
  { id := r.id, title := r.title, author := r.author, year := r.year,
    available := r.available }

/-- The book JSON file: `none` models an absent file. -/
abbrev BookFile := Option (List BookRecord)

namespace BookRepository

/-- `BookRepository.save_books`: overwrite the whole file. -/
def save_books (books : List Book) : BookFile :=
  some (books.map from_book_to_dict)

/-- `BookRepository.get_books`: `[]` for an absent file, else parse all. -/
def get_books (f : BookFile) : List Book :=
  match f with
  | none => []
  | some recs => recs.map from_dic_to_book

/-- `BookRepository.get_last_book_id`: `0` when the file is absent or
empty, otherwise `int` of the last record's id. -/
def get_last_book_id (f : BookFile) : Int :=
  match f with
  | none => 0
  | some [] => 0
  | some (r :: tl) => ((r :: tl).getLast (by simp)).id

/-- The scan loop of `get_book_by_id`. -/
def findFirstBookById (i : Int) (bs : List Book) : Option Book :=
  findFirstSuch (fun b => b.id == i) bs

/-- `BookRepository.get_book_by_id`: opens the file directly (raising
`FileNotFoundError`, the outer `none`, when absent), parses every
record, then scans linearly. -/
def get_book_by_id (i : Int) (f : BookFile) : Option (Option Book) :=
  match f with
  | none => none
  | some recs => some (findFirstBookById i (recs.map from_dic_to_book))

/-- The record-level replacement loop of `update_book`. -/
def updateBookLoop (b : Book) (recs : List BookRecord) : Option (List BookRecord) :=
  replaceFirstIf (fun r => r.id == b.id) (from_book_to_dict b) recs

/-- `BookRepository.update_book`: `False` (no write) when the file is
absent or no record matches; otherwise replaces the first record whose
id matches, rewrites the file, and returns `True`. -/
def update_book (b : Book) (f : BookFile) : BookFile × Bool :=
  match f with
  | none => (none, false)
  | some recs =>
    match updateBookLoop b recs with
    | none => (some recs, false)
    | some recs2 => (some recs2, true)

end BookRepository

/-- A `BookManager`: the backing file plus the in-memory cache. -/
structure BookManagerState where
  file : BookFile
  books : List Book
deriving DecidableEq

namespace BookManager

/-- `BookManager.__init__`: stores the repository and sets the cache to
the empty list; it does not read the repository. -/
def init (f : BookFile) : BookManagerState :=
  { file := f, books := [] }

/-- `BookManager.__save_data`: persist the cache, then reload it. -/
def save_data (st : BookManagerState) : BookManagerState :=
  let f2 := BookRepository.save_books st.books
  { file := f2, books := BookRepository.get_books f2 }

/-- `BookManager.add_book`: append to the cache and save. -/
def add_book (b : Book) (st : BookManagerState) : BookManagerState :=
  save_data { st with books := st.books ++ [b] }

/-- `BookManager.deactivate_book`: look the book up in the repository;
when found, clear `available`, update the repository, and reload.  The
outer `none` models the `FileNotFoundError` of the lookup. -/
def deactivate_book (i : Int) (st : BookManagerState) :
    Option BookManagerState :=
  match BookRepository.get_book_by_id i st.file with
  | none => none
  | some none => some st
  | some (some b) =>
    let b2 : Book := { b with available := false }
    let f2 := (BookRepository.update_book b2 st.file).1
    some { file := f2, books := BookRepository.get_books f2 }

/-- `BookManager.build_new_book_id`: the repository's last id plus one. -/
def build_new_book_id (st : BookManagerState) : Int :=
  BookRepository.get_last_book_id st.file + 1

end BookManager


/-! ## Python string helpers for id generation -/

/-- Fuel-driven worker for `pyReplace`; fuel at least the subject's
length suffices (each step consumes at least one character). -/
def replaceAllFuel (pat repl : List Char) : Nat → List Char → List Char
  | _, [] => []
  | 0, s => s
  | fuel + 1, c :: cs =>
    if pat ≠ [] ∧ startsWithChars pat (c :: cs) then
      repl ++ replaceAllFuel pat repl fuel ((c :: cs).drop pat.length)
    else c :: replaceAllFuel pat repl fuel cs

/-- Python `s.replace(pat, repl)` for a non-empty pattern: replace every
non-overlapping occurrence, scanning left to right. -/
def pyReplace (s pat repl : List Char) : List Char :=
  replaceAllFuel pat repl s.length s

/-- Python `s.zfill(w)` on a digit string: left-pad with `'0'`. -/
def zfillChars (w : Nat) (cs : List Char) : List Char :=
  if w ≤ cs.length then cs else List.replicate (w - cs.length) '0' ++ cs

/-! ## The Students app: `Course` and `Student`

`course/course.py`, `course/course_parser.py`,
`course/course_repository.py`, `course/course_manager.py`,
`student/student_repository.py`, `student/students_manager.py`. -/

/-- The `Course` entity. -/
structure Course where
  course_id : String
  description : String
  max_students : Int
deriving DecidableEq

/-- A course as stored on disk (`CourseParser.from_course_to_dict`). -/
structure CourseRecord where
  id : String
  description : String
  max_students : Int
deriving DecidableEq

/-- `CourseParser.from_course_to_dict`. -/
def from_course_to_dict (c : Course) : CourseRecord :=
  { id := c.course_id, description := c.description,
    max_students := c.max_students }

/-- `CourseParser.from_dict_to_course`. -/
def from_dict_to_course (r : CourseRecord) : Course :=
  { course_id := r.id, description := r.description,
    max_students := r.max_students }

/-- The course JSON file: `none` models an absent file. -/
abbrev CourseFile := Option (List CourseRecord)

namespace CourseRepository

/-- `CourseRepository.save_courses`: overwrite the whole file. -/
def save_courses (cs : List Course) : CourseFile :=
  some (cs.map from_course_to_dict)

/-- `CourseRepository.get_courses`: `[]` when absent, else parse all. -/
def get_courses (f : CourseFile) : List Course :=
  match f with
  | none => []
  | some recs => recs.map from_dict_to_course

/-- `CourseRepository.get_last_course_id`: `"000"` when the file is
absent or empty, else the last record's id string. -/
def get_last_course_id (f : CourseFile) : String :=
  match f with
  | none => "000"
  | some [] => "000"
  | some (r :: tl) => ((r :: tl).getLast (by simp)).id

end CourseRepository

/-- A `CourseManager`: the backing file plus the in-memory cache. -/
structure CourseManagerState where
  file : CourseFile
  courses : List Course
deriving DecidableEq

namespace CourseManager

/-- `CourseManager.load_data`. -/
def load_data (st : CourseManagerState) : CourseManagerState :=
  { st with courses := CourseRepository.get_courses st.file }

/-- `CourseManager.__init__`: empty cache, then `load_data`. -/
def init (f : CourseFile) : CourseManagerState :=
  load_data { file := f, courses := [] }

/-- `CourseManager.save_data`: persist the cache, then `load_data`. -/
def save_data (st : CourseManagerState) : CourseManagerState :=
  load_data { st with file := CourseRepository.save_courses st.courses }

/-- `CourseManager.add_course`: append to the cache and save. -/
def add_course (c : Course) (st : CourseManagerState) : CourseManagerState :=
  save_data { st with courses := st.courses ++ [c] }

/-- `CourseManager.build_new_course_id` for the configured prefix `pfx`
(`config.ids.COURSE_ID_PREFIX`): strip the prefix from the last stored
id, increment, zero-pad to width 3.  `none` models the `ValueError` of
`int` on a non-numeric remainder. -/
def build_new_course_id (pfx : String) (st : CourseManagerState) :
    Option String :=
  let last := CourseRepository.get_last_course_id st.file
  match parseNatChars (pyReplace last.data pfx.data []) with
  | none => none
  | some n => some (String.mk (zfillChars 3 (natChars (n + 1))))

end CourseManager

/-- The `Student` entity of the students app. -/
structure Student where
  student_id : String
  name : String
  last_name : String
  phone_number : String
  email : String
  address : String
deriving DecidableEq

/-- A student as stored on disk. -/
structure StudentRecord where
  id : String
  name : String
  last_name : String
  phone_number : String
  email : String
  address : String
deriving DecidableEq

/-- Modelled from the spec: `student/student_parser.py` is imported by the
student repository but missing from the sources; §6 gives the student
record as a flat field-for-field mapping of id, name, last_name,
phone_number, email and address. -/
def from_student_to_dict (s : Student) : StudentRecord :=
  { id := s.student_id, name := s.name, last_name := s.last_name,
    phone_number := s.phone_number, email := s.email, address := s.address }

/-- Modelled from the spec: inverse field-for-field mapping of
`from_student_to_dict` (see that definition). -/
def from_dict_to_student (r : StudentRecord) : Student :=
  { student_id := r.id, name := r.name, last_name := r.last_name,
    phone_number := r.phone_number, email := r.email, address := r.address }

/-- The student JSON file: `none` models an absent file. -/
abbrev StudentFile := Option (List StudentRecord)

namespace StudentRepository

/-- `StudentRepository.save_students`: overwrite the whole file. -/
def save_students (ss : List Student) : StudentFile :=
  some (ss.map from_student_to_dict)

/-- `StudentRepository.get_students`: `[]` when absent, else parse all. -/
def get_students (f : StudentFile) : List Student :=
  match f with
  | none => []
  | some recs => recs.map from_dict_to_student

/-- `StudentRepository.get_last_student_id`: `"000"` when the file is
absent; `data[-1]` on an empty list raises `IndexError` (`none`); else
the last record's id string. -/
def get_last_student_id (f : StudentFile) : Option String :=
  match f with
  | none => some "000"
  | some [] => none
  | some (r :: tl) => some (((r :: tl).getLast (by simp)).id)

end StudentRepository

/-- A students-app `StudentManager`: backing file plus cache. -/
structure StudentManagerState where
  file : StudentFile
  students : List Student
deriving DecidableEq

namespace StudentManager

/-- `StudentManager.load_data`. -/
def load_data (st : StudentManagerState) : StudentManagerState :=
  { st with students := StudentRepository.get_students st.file }

/-- `StudentManager.__init__`: empty cache, then `load_data`. -/
def init (f : StudentFile) : StudentManagerState :=
  load_data { file := f, students := [] }

/-- `StudentManager.save_data`: persist the cache, then `load_data`. -/
def save_data (st : StudentManagerState) : StudentManagerState :=
  load_data { st with file := StudentRepository.save_students st.students }

/-- `StudentManager.add_student`: append to the cache and save. -/
def add_student (s : Student) (st : StudentManagerState) : StudentManagerState :=
  save_data { st with students := st.students ++ [s] }

/-- `StudentManager.build_new_student_id` for the configured prefix
(`config.ids.STUDENT_ID_PREFIX`): strip the prefix from the last stored
id, increment, zero-pad to width 3.  `none` models a propagated
`IndexError`/`ValueError`. -/
def build_new_student_id (pfx : String) (st : StudentManagerState) :
    Option String :=
  match StudentRepository.get_last_student_id st.file with
  | none => none
  | some last =>
    match parseNatChars (pyReplace last.data pfx.data []) with
    | none => none
    | some n => some (String.mk (zfillChars 3 (natChars (n + 1))))

end StudentManager


/-! ## The Assets app: `ProductChanges`

`history/entity/product_changes.py`,
`history/repository/product_changes_repository.py`,
`history/manager/product_changes_manager.py`. -/

/-- `ProductChangesId`: branded integer identifier. -/
structure ProductChangesId where
  value : Int
deriving DecidableEq

/-- The `ProductChanges` audit entity. -/
structure ProductChanges where
  id : ProductChangesId
  type : String
  date : PyDatetime
  stock : Int
  reason : String
  user : String
  product_id : ProductId
deriving DecidableEq

/-- A change record as stored on disk (ISO date string). -/
structure ChangesRecord where
  id : Int
  type : String
  date : String
  stock : Int
  reason : String
  user : String
  product_id : String
deriving DecidableEq

/-- `ProductChangesParser.from_product_changes_to_dict`. -/
def from_product_changes_to_dict (c : ProductChanges) : ChangesRecord :=
  { id := c.id.value, type := c.type, date := pyIsoformat c.date,
    stock := c.stock, reason := c.reason, user := c.user,
    product_id := c.product_id.value }

/-- `ProductChangesParser.from_dict_to_product_changes`; `none` models
the `ValueError` of an unparsable date. -/
def from_dict_to_product_changes (r : ChangesRecord) : Option ProductChanges :=
  match pyFromisoformat r.date with
  | none => none
  | some dt =>
    some { id := ⟨r.id⟩, type := r.type, date := dt, stock := r.stock,
           reason := r.reason, user := r.user, product_id := ⟨r.product_id⟩ }

/-- The change-record JSON file: `none` models an absent file. -/
abbrev ChangesFile := Option (List ChangesRecord)

namespace ProductChangesRepository

/-- `ProductChangesRepository.save_all`: overwrite the whole file. -/
def save_all (cs : List ProductChanges) : ChangesFile :=
  some (cs.map from_product_changes_to_dict)

/-- `ProductChangesRepository.get_all`: `[]` when the file is absent,
else parse every record (outer `none` = propagated parse error). -/
def get_all (f : ChangesFile) : Option (List ProductChanges) :=
  match f with
  | none => some []
  | some recs => mapOption from_dict_to_product_changes recs

end ProductChangesRepository

/-- A `ProductChangesManager`: backing file plus cache. -/
structure ChangesManagerState where
  file : ChangesFile
  product_changes : List ProductChanges
deriving DecidableEq

namespace ProductChangesManager

/-- `ProductChangesManager.__init__`: store the repository, `load_data`. -/
def init (f : ChangesFile) : Option ChangesManagerState :=
  match ProductChangesRepository.get_all f with
  | none => none
  | some cs => some ⟨f, cs⟩

/-- `ProductChangesManager.save_all`: persist the cache, then reload. -/
def save_all (st : ChangesManagerState) : Option ChangesManagerState :=
  let f2 := ProductChangesRepository.save_all st.product_changes
  match ProductChangesRepository.get_all f2 with
  | none => none
  | some cs => some ⟨f2, cs⟩

/-- `ProductChangesManager.create_product_change`: append and save. -/
def create_product_change (c : ProductChanges) (st : ChangesManagerState) :
    Option ChangesManagerState :=
  save_all { st with product_changes := st.product_changes ++ [c] }

end ProductChangesManager

/-! ## The Library app: `Loan`

`loan/loan.py`, `loan/loan_parser.py`, `loan/loan_repository.py`,
`loan/loan_manager.py`. -/

/-- The `Loan` entity. -/
structure Loan where
  id : Int
  student_id : Int
  book_id : Int
  date : PyDatetime
  return_date : PyDatetime
deriving DecidableEq

/-- A loan as stored on disk (`LoanParser.loan_to_dict`). -/
structure LoanRecord where
  id : Int
  book_id : Int
  date : String
  return_date : String
  student_id : Int
deriving DecidableEq

/-- `LoanParser.loan_to_dict`. -/
def loan_to_dict (l : Loan) : LoanRecord :=
  { id := l.id, book_id := l.book_id, date := pyIsoformat l.date,
    return_date := pyIsoformat l.return_date, student_id := l.student_id }

/-- `LoanParser.dict_to_loan`; `none` models the `ValueError` of an
unparsable date. -/
def dict_to_loan (r : LoanRecord) : Option Loan :=
  match pyFromisoformat r.date, pyFromisoformat r.return_date with
  | some d, some rd =>
    some { id := r.id, student_id := r.student_id, book_id := r.book_id,
           date := d, return_date := rd }
  | _, _ => none

/-- A loan is valid when both timestamps satisfy `datetime`'s ranges. -/
def Loan.Valid (l : Loan) : Prop := l.date.Valid ∧ l.return_date.Valid

instance (l : Loan) : Decidable l.Valid := by
  unfold Loan.Valid; infer_instance

/-- The loan JSON file: `none` models an absent file. -/
abbrev LoanFile := Option (List LoanRecord)

namespace LoanRepository

/-- `LoanRepository.save_loans`: overwrite the whole file. -/
def save_loans (ls : List Loan) : LoanFile :=
  some (ls.map loan_to_dict)

/-- `LoanRepository.get_loans`: `[]` when the file is absent, else parse
every record (outer `none` = propagated parse error). -/
def get_loans (f : LoanFile) : Option (List Loan) :=
  match f with
  | none => some []
  | some recs => mapOption dict_to_loan recs

end LoanRepository

/-- A `LoanManager`: loan file, loan cache and the book manager it
collaborates with (the student manager is summarized by the lookup
outcome passed to `create_loan`). -/
structure LoanManagerState where
  loanFile : LoanFile
  loans : List Loan
  bookSt : BookManagerState
deriving DecidableEq

namespace LoanManager

/-- `LoanManager.build_loan_id`: 1 on an empty cache, else last id + 1. -/
def build_loan_id (loans : List Loan) : Int :=
  match loans with
  | [] => 1
  | l :: tl => ((l :: tl).getLast (by simp)).id + 1

/-- `LoanManager.create_loan`.  `studentFound` is the outcome of the
student lookup; `now`/`ret` are the two timestamps taken from the clock.
When the student is missing, or the book lookup misses or finds an
unavailable book, the method prints a message and returns with no state
change; otherwise it appends the loan, saves and reloads, and
deactivates the book.  Outer `none` models a propagated exception. -/
def create_loan (studentFound : Bool) (student_id book_id : Int)
    (now ret : PyDatetime) (st : LoanManagerState) : Option LoanManagerState :=
  if studentFound = false then some st
  else
    match BookRepository.get_book_by_id book_id st.bookSt.file with
    | none => none
    | some none => some st
    | some (some b) =>
      if b.available = false then some st
      else
        let loan : Loan := { id := build_loan_id st.loans,
                             student_id := student_id, book_id := book_id,
                             date := now, return_date := ret }
        let loans2 := st.loans ++ [loan]
        let f2 := LoanRepository.save_loans loans2
        match LoanRepository.get_loans f2 with
        | none => none
        | some ls =>
          match BookManager.deactivate_book b.id st.bookSt with
          | none => none
          | some bst2 => some { loanFile := f2, loans := ls, bookSt := bst2 }

end LoanManager

/-! ## First-match lemmas for the scan and update loops -/

theorem findFirstSuch_eq_find (q : α → Bool) (l : List α) :
    findFirstSuch q l = l.find? q := by
  induction l with
  | nil => rfl
  | cons a tl ih =>
    by_cases h : q a
    · simp [findFirstSuch, h, List.find?_cons_of_pos]
    · rw [findFirstSuch, if_neg (by simp [h]), List.find?_cons_of_neg _ (by simp [h]), ih]

theorem replaceFirstIf_eq_none {q : α → Bool} {x : α} {l : List α} :
    replaceFirstIf q x l = none ↔ ∀ a ∈ l, q a = false := by
  induction l with
  | nil => simp [replaceFirstIf]
  | cons a tl ih =>
    by_cases h : q a
    · simp [replaceFirstIf, h]
    · rw [replaceFirstIf, if_neg (by simp [h])]
      cases htl : replaceFirstIf q x tl with
      | none =>
        constructor
        · intro _ b hb
          rcases List.mem_cons.mp hb with rfl | hb2
          · simpa using h
          · exact ih.mp htl b hb2
        · intro _
          rfl
      | some tl2 =>
        constructor
        · intro hcon
          cases hcon
        · intro hall
          have hn : replaceFirstIf q x tl = none :=
            ih.mpr (fun b hb => hall b (by simp [hb]))
          rw [htl] at hn
          cases hn

theorem replaceFirstIf_spec {q : α → Bool} {x : α} {l l2 : List α}
    (h : replaceFirstIf q x l = some l2) :
    ∃ k, ∃ hk : k < l.length, q (l.get ⟨k, hk⟩) = true ∧
      (∀ j (hj : j < k), q (l.get ⟨j, Nat.lt_trans hj hk⟩) = false) ∧
      l2 = l.set k x := by
  induction l generalizing l2 with
  | nil => cases h
  | cons a tl ih =>
    rw [replaceFirstIf] at h
    by_cases hq : q a
    · rw [if_pos hq] at h
      refine ⟨0, by simp, by simpa using hq, by omega, ?_⟩
      simp only [List.set]
      exact (Option.some_inj.mp h).symm
    · rw [if_neg hq] at h
      cases htl : replaceFirstIf q x tl with
      | none => rw [htl] at h; cases h
      | some tl2 =>
        rw [htl] at h
        obtain rfl := (Option.some_inj.mp h).symm
        obtain ⟨k, hk, hqk, hfirst, rfl⟩ := ih htl
        refine ⟨k + 1, by simpa using Nat.succ_lt_succ hk, by simpa using hqk, ?_, rfl⟩
        intro j hj
        cases j with
        | zero => simpa using hq
        | succ j2 =>
          have := hfirst j2 (by omega)
          simpa using this

theorem replaceFirstIf_isSome_of_exists {q : α → Bool} {x : α} {l : List α}
    (h : ∃ a ∈ l, q a = true) : ∃ l2, replaceFirstIf q x l = some l2 := by
  cases hc : replaceFirstIf q x l with
  | none =>
    obtain ⟨a, ha, hqa⟩ := h
    have := replaceFirstIf_eq_none.mp hc a ha
    rw [hqa] at this
    cases this
  | some l2 => exact ⟨l2, rfl⟩

theorem findFirstSuch_set {q : α → Bool} {x : α} {l : List α} {k : Nat}
    (hk : k < l.length) (hqx : q x = true)
    (hfirst : ∀ j (hj : j < k), q (l.get ⟨j, Nat.lt_trans hj hk⟩) = false) :
    findFirstSuch q (l.set k x) = some x := by
  induction l generalizing k with
  | nil => simp at hk
  | cons a tl ih =>
    cases k with
    | zero => simp [List.set, findFirstSuch, hqx]
    | succ k2 =>
      have hqa : q a = false := by simpa using hfirst 0 (by omega)
      rw [List.set]
      rw [findFirstSuch, if_neg (by simp [hqa])]
      exact ih (by simpa using hk) (fun j hj => by simpa using hfirst (j + 1) (by omega))


/-! ## Validity of audit records and shared save/load lemmas -/

/-- A change record is valid when its timestamp is in `datetime` range. -/
def ProductChanges.Valid (c : ProductChanges) : Prop := c.date.Valid

instance (c : ProductChanges) : Decidable c.Valid := by
  unfold ProductChanges.Valid; infer_instance

theorem from_dict_from_changes (c : ProductChanges) (h : c.Valid) :
    from_dict_to_product_changes (from_product_changes_to_dict c) = some c := by
  rw [from_dict_to_product_changes, from_product_changes_to_dict]
  simp only [pyDatetime_roundtrip c.date h]

theorem dict_to_loan_loan_to_dict (l : Loan) (h : l.Valid) :
    dict_to_loan (loan_to_dict l) = some l := by
  rw [dict_to_loan, loan_to_dict]
  simp only [pyDatetime_roundtrip l.date h.1, pyDatetime_roundtrip l.return_date h.2]

theorem get_all_save_all {xs : List Product} (h : ∀ p ∈ xs, p.Valid) :
    ProductRepository.get_all (ProductRepository.save_all xs) = some xs :=
  mapOption_eq_some_of_forall (fun p hp => from_dict_from_product p (h p hp))

theorem changes_get_all_save_all {cs : List ProductChanges}
    (h : ∀ c ∈ cs, c.Valid) :
    ProductChangesRepository.get_all (ProductChangesRepository.save_all cs) =
      some cs :=
  mapOption_eq_some_of_forall (fun c hc => from_dict_from_changes c (h c hc))

theorem get_loans_save_loans {ls : List Loan} (h : ∀ l ∈ ls, l.Valid) :
    LoanRepository.get_loans (LoanRepository.save_loans ls) = some ls :=
  mapOption_eq_some_of_forall (fun l hl => dict_to_loan_loan_to_dict l (h l hl))

/-! ## Concrete sample data for witnesses -/

/-- `Decimal("19.99")`. -/
def sampleDecimal : PyDecimal := ⟨false, [1, 9, 9, 9], -2⟩

/-- A concrete product. -/
def sampleProduct : Product :=
  ⟨⟨"SKU-1"⟩, "Widget", "Gadgets", 10, sampleDecimal, "A widget", true⟩

/-- A second concrete product. -/
def sampleProduct2 : Product :=
  ⟨⟨"SKU-2"⟩, "Cable", "Cables", 5, ⟨false, [5], 0⟩, "A cable", true⟩

/-- A concrete timestamp with zero microseconds. -/
def sampleDate : PyDatetime := ⟨2025, 8, 17, 10, 30, 0, 0⟩

/-- A concrete timestamp with non-zero microseconds. -/
def sampleDate2 : PyDatetime := ⟨2025, 8, 27, 10, 30, 0, 250000⟩

/-- A concrete loan. -/
def sampleLoan : Loan := ⟨1, 2, 3, sampleDate, sampleDate2⟩

/-! ## Claim theorems -/

/-- C5: for every valid entity of a serializable family,
`from_record(to_record(e))` equals `e` field for field: the `Decimal`
price survives exactly through its string serialization, and the loan
dates parse back from ISO format to the same instant. -/
theorem C5_serializer_roundtrip :
    (∀ p : Product, p.Valid →
      from_dict_to_product (from_product_to_dict p) = some p) ∧
    (∀ l : Loan, l.Valid → dict_to_loan (loan_to_dict l) = some l) :=
  ⟨fun p h => from_dict_from_product p h,
   fun l h => dict_to_loan_loan_to_dict l h⟩

theorem C5_serializer_roundtrip_witness :
    sampleProduct.Valid ∧
      from_dict_to_product (from_product_to_dict sampleProduct) =
        some sampleProduct ∧
    sampleLoan.Valid ∧
      dict_to_loan (loan_to_dict sampleLoan) = some sampleLoan :=
  ⟨by decide, C5_serializer_roundtrip.1 sampleProduct (by decide),
   by decide, C5_serializer_roundtrip.2 sampleLoan (by decide)⟩

/-- C6: after `save_all(xs)`, `get_all()` returns a list equal to `xs`
(same length, same ids and field values position by position), for the
empty list and for non-empty lists alike. -/
theorem C6_save_all_then_get_all (xs : List Product) (h : ∀ p ∈ xs, p.Valid) :
    ProductRepository.get_all (ProductRepository.save_all xs) = some xs :=
  get_all_save_all h

theorem C6_save_all_then_get_all_witness :
    ProductRepository.get_all (ProductRepository.save_all []) = some [] ∧
    ProductRepository.get_all
        (ProductRepository.save_all [sampleProduct, sampleProduct2]) =
      some [sampleProduct, sampleProduct2] :=
  ⟨C6_save_all_then_get_all [] (by simp),
   C6_save_all_then_get_all [sampleProduct, sampleProduct2] (by decide)⟩

/-- What `ProductRepository.delete` does to one stored product. -/
def flipActive (i : ProductId) (p : Product) : Product :=
  if p.id.value = i.value then { p with active := false } else p

/-- C10: `ProductRepository.delete` is a soft delete preserving the
collection: the record count is unchanged, every field except `active`
is unchanged, `active` is cleared exactly on the records whose id
matches, a miss leaves the contents unchanged, and the file is rewritten
in every case. -/
theorem C10_delete_is_soft_delete (ps : List Product) (i : ProductId)
    (hv : ∀ p ∈ ps, p.Valid) :
    ProductRepository.delete i (ProductRepository.save_all ps) =
      some (ProductRepository.save_all (ps.map (flipActive i))) ∧
    (ps.map (flipActive i)).length = ps.length ∧
    (∀ p ∈ ps, (flipActive i p).id = p.id ∧
      (flipActive i p).name = p.name ∧
      (flipActive i p).category = p.category ∧
      (flipActive i p).in_stock = p.in_stock ∧
      (flipActive i p).price = p.price ∧
      (flipActive i p).description = p.description ∧
      (flipActive i p).active = (if p.id.value = i.value then false
                                 else p.active)) ∧
    ((∀ p ∈ ps, p.id.value ≠ i.value) → ps.map (flipActive i) = ps) := by
  refine ⟨?_, by simp, ?_, ?_⟩
  · rw [ProductRepository.delete]
    simp only [get_all_save_all hv]
    rfl
  · intro p hp
    by_cases h : p.id.value = i.value <;> simp [flipActive, h]
  · intro hno
    have hid : ∀ p ∈ ps, flipActive i p = p := by
      intro p hp
      simp [flipActive, hno p hp]
    calc ps.map (flipActive i) = ps.map id := List.map_congr_left hid
      _ = ps := List.map_id ps

theorem C10_delete_is_soft_delete_witness :
    ProductRepository.delete ⟨"SKU-1"⟩
        (ProductRepository.save_all [sampleProduct, sampleProduct2]) =
      some (ProductRepository.save_all
        ([sampleProduct, sampleProduct2].map (flipActive ⟨"SKU-1"⟩))) :=
  (C10_delete_is_soft_delete [sampleProduct, sampleProduct2] ⟨"SKU-1"⟩
    (by decide)).1

theorem productId_eq_iff {a b : ProductId} : a = b ↔ a.value = b.value := by
  cases a
  cases b
  simp

/-- C4 counterexample: with an absent backing file, `get_by_id` raises
(`none`) instead of returning the absence value that a linear scan of
`get_all()`'s result would produce. -/
theorem C4_get_by_id_counterexample :
    ProductRepository.get_by_id ⟨"SKU-1"⟩ none ≠
      (ProductRepository.get_all none).map
        (fun ps => ProductRepository.findFirstById ⟨"SKU-1"⟩ ps) := by
  decide

/-- C4 amended: when the backing file exists, `get_by_id` behaves as a
linear scan of `get_all()`'s result, returning the first id match and an
absence value (not an exception) on a miss; when the backing file does
not exist, `get_by_id` raises `FileNotFoundError` instead (both for the
product and for the book repository). -/
theorem C4_get_by_id_amended :
    (∀ (i : ProductId) (recs : List ProductRecord),
      ProductRepository.get_by_id i (some recs) =
        (ProductRepository.get_all (some recs)).map
          (fun ps => ProductRepository.findFirstById i ps)) ∧
    (∀ (i : ProductId) (ps : List Product),
      ProductRepository.findFirstById i ps =
        ps.find? (fun p => p.id.value == i.value)) ∧
    (∀ i : ProductId, ProductRepository.get_by_id i none = none) ∧
    (∀ (j : Int) (recs : List BookRecord),
      BookRepository.get_book_by_id j (some recs) =
        some (BookRepository.findFirstBookById j
          (BookRepository.get_books (some recs)))) ∧
    (∀ (j : Int) (bs : List Book),
      BookRepository.findFirstBookById j bs = bs.find? (fun b => b.id == j)) ∧
    (∀ j : Int, BookRepository.get_book_by_id j none = none) := by
  refine ⟨?_, ?_, fun i => rfl, fun j recs => rfl, ?_, fun j => rfl⟩
  · intro i recs
    cases h : mapOption from_dict_to_product recs <;>
      simp [ProductRepository.get_by_id, ProductRepository.get_all, h]
  · intro i ps
    exact findFirstSuch_eq_find _ ps
  · intro j bs
    exact findFirstSuch_eq_find _ bs


/-- C3: `update(entity)`: when a stored record shares the entity's id,
the first such record (in file order) is replaced and the whole file
rewritten, so `get_by_id` afterwards returns the updated entity; when no
stored record shares the id, the stored collection is unchanged and no
error is raised.  Both for the product repository (entity-level loop)
and the book repository (record-level loop returning a boolean). -/
theorem C3_update_replaces_first_match :
    (∀ (f : ProductFile) (ps : List Product) (e : Product),
      ProductRepository.get_all f = some ps →
      (∀ p ∈ ps, p.Valid) → e.Valid →
      ((∃ q ∈ ps, q.id = e.id) →
        ∃ k, ∃ hk : k < ps.length,
          (ps.get ⟨k, hk⟩).id = e.id ∧
          (∀ j (hj : j < k), (ps.get ⟨j, Nat.lt_trans hj hk⟩).id ≠ e.id) ∧
          ProductRepository.update e f =
            some (ProductRepository.save_all (ps.set k e)) ∧
          ProductRepository.get_by_id e.id
              (ProductRepository.save_all (ps.set k e)) = some (some e)) ∧
      ((∀ q ∈ ps, q.id ≠ e.id) → ProductRepository.update e f = some f)) ∧
    (∀ (recs : List BookRecord) (b : Book),
      ((∃ r ∈ recs, r.id = b.id) →
        ∃ k, ∃ hk : k < recs.length,
          (recs.get ⟨k, hk⟩).id = b.id ∧
          (∀ j (hj : j < k), (recs.get ⟨j, Nat.lt_trans hj hk⟩).id ≠ b.id) ∧
          BookRepository.update_book b (some recs) =
            (some (recs.set k (from_book_to_dict b)), true) ∧
          BookRepository.get_book_by_id b.id
              (some (recs.set k (from_book_to_dict b))) = some (some b)) ∧
      ((∀ r ∈ recs, r.id ≠ b.id) →
        BookRepository.update_book b (some recs) = (some recs, false))) := by
  constructor
  · intro f ps e hga hv he
    constructor
    · rintro ⟨q, hq, hqe⟩
      have hex : ∃ a ∈ ps, (fun p => p.id == e.id) a = true :=
        ⟨q, hq, by simp [hqe]⟩
      obtain ⟨ps2, hps2⟩ :=
        replaceFirstIf_isSome_of_exists (x := e) hex
      obtain ⟨k, hk, hqk, hfirst, rfl⟩ := replaceFirstIf_spec hps2
      refine ⟨k, hk, by simpa using hqk,
        fun j hj => by simpa using hfirst j hj, ?_, ?_⟩
      · rw [ProductRepository.update]
        simp only [hga, ProductRepository.updateLoop, hps2]
      · have hvset : ∀ p ∈ ps.set k e, p.Valid := by
          intro p hp
          rcases List.mem_or_eq_of_mem_set hp with hmem | heq
          · exact hv p hmem
          · rw [heq]; exact he
        have hparse : mapOption from_dict_to_product
            ((ps.set k e).map from_product_to_dict) = some (ps.set k e) :=
          mapOption_eq_some_of_forall
            (fun p hp => from_dict_from_product p (hvset p hp))
        show ProductRepository.get_by_id e.id
            (some ((ps.set k e).map from_product_to_dict)) = some (some e)
        simp only [ProductRepository.get_by_id, hparse]
        rw [ProductRepository.findFirstById,
          findFirstSuch_set hk (by simp) (fun j hj => ?_)]
        have hne := hfirst j hj
        simp only [beq_eq_false_iff_ne, ne_eq] at hne
        simp only [beq_eq_false_iff_ne, ne_eq]
        intro hval
        exact hne (productId_eq_iff.mpr hval)
    · intro hall
      have hnone : ProductRepository.updateLoop e ps = none :=
        replaceFirstIf_eq_none.mpr
          (fun a ha => by simp [hall a ha])
      rw [ProductRepository.update]
      simp only [hga, hnone]
  · intro recs b
    constructor
    · rintro ⟨r, hr, hre⟩
      have hex : ∃ a ∈ recs, (fun r2 => r2.id == b.id) a = true :=
        ⟨r, hr, by simp [hre]⟩
      obtain ⟨recs2, hrecs2⟩ :=
        replaceFirstIf_isSome_of_exists (x := from_book_to_dict b) hex
      obtain ⟨k, hk, hqk, hfirst, rfl⟩ := replaceFirstIf_spec hrecs2
      refine ⟨k, hk, by simpa using hqk,
        fun j hj => by simpa using hfirst j hj, ?_, ?_⟩
      · rw [BookRepository.update_book]
        simp only [BookRepository.updateBookLoop, hrecs2]
      · show some (BookRepository.findFirstBookById b.id
            ((recs.set k (from_book_to_dict b)).map from_dic_to_book)) =
          some (some b)
        rw [List.map_set]
        rw [BookRepository.findFirstBookById,
          findFirstSuch_set (by simpa using hk) (by simp [from_dic_to_book, from_book_to_dict])
            (fun j hj => ?_)]
        · rfl
        · have hne := hfirst j hj
          simp only [beq_eq_false_iff_ne, ne_eq, List.get_eq_getElem] at hne
          simp only [List.get_eq_getElem, List.getElem_map]
          simpa [from_dic_to_book] using hne
    · intro hall
      have hnone : BookRepository.updateBookLoop b recs = none :=
        replaceFirstIf_eq_none.mpr
          (fun a ha => by simp [hall a ha])
      rw [BookRepository.update_book]
      simp only [hnone]

theorem C3_update_replaces_first_match_witness :
    ProductRepository.update sampleProduct2
        (ProductRepository.save_all [sampleProduct]) =
      some (ProductRepository.save_all [sampleProduct]) :=
  (C3_update_replaces_first_match.1
    (ProductRepository.save_all [sampleProduct]) [sampleProduct] sampleProduct2
    (by decide) (by decide) (by decide)).2 (by decide)

/-- The stock number durably stored for an id: the `inStock` field of the
first record in the file whose id matches (`none` when the file is
absent or no record matches). -/
def storedStock (i : ProductId) (f : ProductFile) : Option Int :=
  match f with
  | none => none
  | some recs => (recs.find? (fun r => r.id == i.value)).map (fun r => r.inStock)

theorem update_product_stored (st : ProductManagerState) (ps : List Product)
    (p2 : Product) (hf : st.file = ProductRepository.save_all ps)
    (hv : ∀ p ∈ ps, p.Valid) (hv2 : p2.Valid)
    (hex : ∃ q ∈ ps, q.id = p2.id) :
    ∃ k, ∃ hk : k < ps.length,
      ProductManager.update_product p2 st =
        some ⟨ProductRepository.save_all (ps.set k p2), ps.set k p2⟩ ∧
      storedStock p2.id (ProductRepository.save_all (ps.set k p2)) =
        some p2.in_stock := by
  obtain ⟨q, hq, hqe⟩ := hex
  have hexb : ∃ a ∈ ps, (fun p => p.id == p2.id) a = true := ⟨q, hq, by simp [hqe]⟩
  obtain ⟨ps2, hps2⟩ := replaceFirstIf_isSome_of_exists (x := p2) hexb
  obtain ⟨k, hk, hqk, hfirst, rfl⟩ := replaceFirstIf_spec hps2
  have hvset : ∀ p ∈ ps.set k p2, p.Valid := by
    intro p hp
    rcases List.mem_or_eq_of_mem_set hp with hmem | heq
    · exact hv p hmem
    · rw [heq]; exact hv2
  refine ⟨k, hk, ?_, ?_⟩
  · rw [ProductManager.update_product, hf, ProductRepository.update]
    simp only [get_all_save_all hv, ProductRepository.updateLoop, hps2,
      get_all_save_all hvset]
  · show ((((ps.set k p2).map from_product_to_dict).find?
        (fun r => r.id == p2.id.value)).map (fun r => r.inStock)) = some p2.in_stock
    rw [← findFirstSuch_eq_find, List.map_set]
    rw [findFirstSuch_set (by simpa using hk)
      (by simp [from_product_to_dict]) (fun j hj => ?_)]
    · rfl
    · have hne := hfirst j hj
      simp only [beq_eq_false_iff_ne, ne_eq, List.get_eq_getElem] at hne
      simp only [List.get_eq_getElem, List.getElem_map]
      simp only [beq_eq_false_iff_ne, ne_eq, from_product_to_dict]
      intro hval
      exact hne (productId_eq_iff.mpr hval)

/-- C2: for a stored product `p` and non-negative amount `a`: an amount
exceeding the current stock makes `delete_product_stock` return `False`
with the stored stock unchanged; an amount within stock returns `True`,
persists `current - a`, and prints the low-stock alert exactly when the
resulting stock is 1 or 0; `add_product_stock` always succeeds and
persists `current + a`. -/
theorem C2_stock_adjustment (st : ProductManagerState) (ps : List Product)
    (p : Product) (a : Int) (hf : st.file = ProductRepository.save_all ps)
    (hv : ∀ q ∈ ps, q.Valid) (hvp : p.Valid)
    (hmem : ∃ q ∈ ps, q.id = p.id) (ha : 0 ≤ a) :
    (p.in_stock < a →
      ProductManager.delete_product_stock p a st = some (st, false, false)) ∧
    (a ≤ p.in_stock →
      ∃ st2, ProductManager.delete_product_stock p a st =
          some (st2, true, decide (p.in_stock - a ≤ 1)) ∧
        storedStock p.id st2.file = some (p.in_stock - a) ∧
        ((p.in_stock - a ≤ 1) ↔ (p.in_stock - a = 0 ∨ p.in_stock - a = 1))) ∧
    (∃ st3, ProductManager.add_product_stock p a st = some st3 ∧
      storedStock p.id st3.file = some (p.in_stock + a)) := by
  refine ⟨?_, ?_, ?_⟩
  · intro hlt
    rw [ProductManager.delete_product_stock, if_pos hlt]
  · intro hle
    obtain ⟨k, _hk, hupd, hstored⟩ := update_product_stored st ps
      { p with in_stock := p.in_stock - a } hf hv hvp hmem
    refine ⟨⟨ProductRepository.save_all
        (ps.set k { p with in_stock := p.in_stock - a }),
        ps.set k { p with in_stock := p.in_stock - a }⟩, ?_, ?_, by omega⟩
    · rw [ProductManager.delete_product_stock, if_neg (by omega)]
      simp only [hupd]
    · exact hstored
  · obtain ⟨k, _hk, hupd, hstored⟩ := update_product_stored st ps
      { p with in_stock := p.in_stock + a } hf hv hvp hmem
    exact ⟨_, hupd, hstored⟩

/-- The concrete manager state used by witnesses: one stored product. -/
def sampleManagerState : ProductManagerState :=
  ⟨ProductRepository.save_all [sampleProduct], [sampleProduct]⟩

theorem C2_stock_adjustment_witness :
    ∃ st2, ProductManager.delete_product_stock sampleProduct 9
        sampleManagerState =
        some (st2, true, decide (sampleProduct.in_stock - 9 ≤ 1)) ∧
      storedStock sampleProduct.id st2.file =
        some (sampleProduct.in_stock - 9) ∧
      ((sampleProduct.in_stock - 9 ≤ 1) ↔
        (sampleProduct.in_stock - 9 = 0 ∨ sampleProduct.in_stock - 9 = 1)) :=
  (C2_stock_adjustment sampleManagerState [sampleProduct] sampleProduct 9
    rfl (by decide) (by decide) ⟨sampleProduct, by simp, rfl⟩
    (by decide)).2.1 (by decide)

theorem startsWithChars_append_self (pat x : List Char) :
    startsWithChars pat (pat ++ x) = true := by
  induction pat with
  | nil => rfl
  | cons p pt ih => simp [startsWithChars, ih]

theorem replaceAllFuel_no_occ {pat s : List Char}
    (hno : ∀ i, startsWithChars pat (s.drop i) = false) :
    ∀ fuel, replaceAllFuel pat [] fuel s = s := by
  induction s with
  | nil => intro fuel; cases fuel <;> rfl
  | cons c cs ih =>
    intro fuel
    cases fuel with
    | zero => rfl
    | succ f =>
      have h0 : startsWithChars pat (c :: cs) = false := by
        have := hno 0
        simpa using this
      rw [replaceAllFuel, if_neg (by simp [h0])]
      rw [ih (fun i => by simpa using hno (i + 1)) f]

theorem pyReplace_strip {pfx ds : List Char} (hp : pfx ≠ [])
    (hno : ∀ i, startsWithChars pfx (ds.drop i) = false) :
    pyReplace (pfx ++ ds) pfx [] = ds := by
  obtain ⟨p, pt, rfl⟩ := List.exists_cons_of_ne_nil hp
  rw [pyReplace]
  have hlen : ((p :: pt) ++ ds).length = pt.length + ds.length + 1 := by
    simp
  rw [hlen]
  show replaceAllFuel (p :: pt) [] (pt.length + ds.length + 1)
      (p :: (pt ++ ds)) = ds
  rw [replaceAllFuel, if_pos ⟨by simp, by
    simpa using startsWithChars_append_self (p :: pt) ds⟩]
  rw [List.nil_append]
  have hdrop : (p :: (pt ++ ds)).drop (p :: pt).length = ds := by
    show ((p :: pt) ++ ds).drop (p :: pt).length = ds
    exact List.drop_left (p :: pt) ds
  rw [hdrop]
  exact replaceAllFuel_no_occ hno _

/-- The concrete stored course collection used by the counterexample. -/
def sampleCourseRecords : List CourseRecord := [⟨"C-001", "Intro", 30⟩]

/-- C7 counterexample: with prefix `"C-"` and last stored id `"C-001"`,
`build_new_course_id` returns `"002"` — the zero-padded increment
without the prefix — not the re-prefixed `"C-002"` the claim states. -/
theorem C7_next_id_counterexample :
    CourseManager.build_new_course_id "C-"
        (CourseManager.init (some sampleCourseRecords)) = some "002" ∧
      some ("002" : String) ≠ some ("C-002" : String) := by
  constructor
  · decide
  · decide

/-- C7 amended: for numeric-id books the generated id is the last stored
id plus 1, and 1 when the collection is empty or absent; for the
prefixed-string families (courses, students) the generator strips the
configured prefix from the last stored id, increments the numeric
remainder and re-zero-pads it to width 3, but returns it without
re-attaching the prefix (the factory re-attaches the prefix when the
entity is created). -/
theorem C7_next_id_amended :
    (∀ (recs : List BookRecord) (hne : recs ≠ []),
      BookManager.build_new_book_id (BookManager.init (some recs)) =
        (recs.getLast hne).id + 1) ∧
    BookManager.build_new_book_id (BookManager.init none) = 1 ∧
    BookManager.build_new_book_id (BookManager.init (some [])) = 1 ∧
    (∀ (pfx ds : List Char) (recs : List CourseRecord) (hne : recs ≠ [])
        (n : Nat), pfx ≠ [] →
      (recs.getLast hne).id.data = pfx ++ ds →
      parseNatChars ds = some n →
      (∀ i, startsWithChars pfx (ds.drop i) = false) →
      CourseManager.build_new_course_id (String.mk pfx)
          (CourseManager.init (some recs)) =
        some (String.mk (zfillChars 3 (natChars (n + 1))))) ∧
    (∀ (pfx ds : List Char) (recs : List StudentRecord) (hne : recs ≠ [])
        (n : Nat), pfx ≠ [] →
      (recs.getLast hne).id.data = pfx ++ ds →
      parseNatChars ds = some n →
      (∀ i, startsWithChars pfx (ds.drop i) = false) →
      StudentManager.build_new_student_id (String.mk pfx)
          (StudentManager.init (some recs)) =
        some (String.mk (zfillChars 3 (natChars (n + 1))))) := by
  refine ⟨?_, rfl, rfl, ?_, ?_⟩
  · intro recs hne
    match recs, hne with
    | r :: tl, _ => rfl
  · intro pfx ds recs hne n hp hid hparse hno
    match recs, hne with
    | r :: tl, _ =>
      rw [CourseManager.build_new_course_id]
      have hfile : (CourseManager.init (some (r :: tl))).file = some (r :: tl) :=
        rfl
      rw [hfile]
      have hlast : CourseRepository.get_last_course_id (some (r :: tl)) =
          ((r :: tl).getLast (by simp)).id := rfl
      rw [hlast]
      have hdata : (String.mk pfx).data = pfx := rfl
      rw [hdata, hid, pyReplace_strip hp hno, hparse]
  · intro pfx ds recs hne n hp hid hparse hno
    match recs, hne with
    | r :: tl, _ =>
      rw [StudentManager.build_new_student_id]
      have hfile : (StudentManager.init (some (r :: tl))).file = some (r :: tl) :=
        rfl
      rw [hfile]
      show (match parseNatChars (pyReplace ((r :: tl).getLast (by simp)).id.data
          (String.mk pfx).data []) with
        | none => none
        | some m => some (String.mk (zfillChars 3 (natChars (m + 1))))) =
        some (String.mk (zfillChars 3 (natChars (n + 1))))
      have hdata : (String.mk pfx).data = pfx := rfl
      rw [hdata, hid, pyReplace_strip hp hno, hparse]

theorem C7_next_id_amended_witness :
    ("C-" : String).data ≠ [] ∧
    (sampleCourseRecords.getLast (by decide)).id.data =
      ("C-" : String).data ++ ("001" : String).data ∧
    parseNatChars ("001" : String).data = some 1 ∧
    CourseManager.build_new_course_id (String.mk ("C-" : String).data)
        (CourseManager.init (some sampleCourseRecords)) =
      some (String.mk (zfillChars 3 (natChars (1 + 1)))) :=
  ⟨by decide, by decide, by decide,
   C7_next_id_amended.2.2.2.1 ("C-" : String).data ("001" : String).data
     sampleCourseRecords (by decide) 1 (by decide) (by decide) (by decide)
     (fun i => by
       match i with
       | 0 => decide
       | 1 => decide
       | 2 => decide
       | (j + 3) => simp [List.drop, startsWithChars])⟩

/-- C8: `get_products_by_filter` returns the whole cached list when no
criterion is supplied, and with any combination of criteria returns
exactly the products satisfying all of them — membership coincides with
the intersection of the results of applying each criterion alone. -/
theorem C8_filter_conjunction :
    (∀ (pm ci : Bool) (products : List Product),
      get_products_by_filter none none none none none none none none none
        none pm ci products = products) ∧
    (∀ (category name description : Option String) (active : Option Bool)
        (min_price max_price : Option PyDecimal)
        (min_stock max_stock : Option Int) (idq : Option ProductId)
        (id_contains : Option String) (pm ci : Bool)
        (products : List Product) (p : Product),
      p ∈ get_products_by_filter category name description active min_price
          max_price min_stock max_stock idq id_contains pm ci products ↔
        (p ∈ get_products_by_filter category none none none none none none
            none none none pm ci products ∧
         p ∈ get_products_by_filter none name none none none none none none
            none none pm ci products ∧
         p ∈ get_products_by_filter none none description none none none
            none none none none pm ci products ∧
         p ∈ get_products_by_filter none none none active none none none
            none none none pm ci products ∧
         p ∈ get_products_by_filter none none none none min_price max_price
            none none none none pm ci products ∧
         p ∈ get_products_by_filter none none none none none none min_stock
            max_stock none none pm ci products ∧
         p ∈ get_products_by_filter none none none none none none none none
            idq none pm ci products ∧
         p ∈ get_products_by_filter none none none none none none none none
            none id_contains pm ci products)) := by
  constructor
  · intro pm ci products
    rw [get_products_by_filter, List.filter_eq_self]
    intro p _
    rfl
  · intro category name description active min_price max_price min_stock
      max_stock idq id_contains pm ci products p
    simp only [get_products_by_filter, List.mem_filter, productMatches,
      matchText, matchBool, Bool.and_eq_true, Bool.and_true, Bool.true_and]
    tauto

/-- C9: when the book looked up during loan creation is absent (lookup
returns no book) or not available, `create_loan` returns with the loan
collection, the loan cache and the book state all unchanged, and no
exception is raised. -/
theorem C9_create_loan_unavailable (st : LoanManagerState) (sid bid : Int)
    (now ret : PyDatetime)
    (h : BookRepository.get_book_by_id bid st.bookSt.file = some none ∨
      ∃ b, BookRepository.get_book_by_id bid st.bookSt.file = some (some b) ∧
        b.available = false) :
    LoanManager.create_loan true sid bid now ret st = some st := by
  rw [LoanManager.create_loan, if_neg (by simp)]
  rcases h with h | ⟨b, hb, hav⟩
  · simp only [h]
  · simp only [hb, hav]
    rw [if_pos trivial]

/-- A concrete unavailable stored book. -/
def sampleBookRecord : BookRecord := ⟨1, "1984", "Orwell", "1949", false⟩

/-- A concrete loan-manager state over one unavailable book. -/
def sampleLoanState : LoanManagerState :=
  ⟨some [], [], ⟨some [sampleBookRecord], []⟩⟩

theorem C9_create_loan_unavailable_witness :
    LoanManager.create_loan true 2 1 sampleDate sampleDate2 sampleLoanState =
      some sampleLoanState :=
  C9_create_loan_unavailable sampleLoanState 2 1 sampleDate sampleDate2
    (Or.inr ⟨⟨1, "1984", "Orwell", "1949", false⟩, by decide, rfl⟩)

theorem product_save_data_sync (st st2 : ProductManagerState)
    (h : ProductManager.save_data st = some st2) :
    ProductRepository.get_all st2.file = some st2.products := by
  rw [ProductManager.save_data] at h
  cases h2 : ProductRepository.get_all (ProductRepository.save_all st.products) with
  | none => rw [h2] at h; cases h
  | some ps =>
    rw [h2] at h
    obtain rfl := Option.some_inj.mp h
    exact h2

theorem update_product_sync (p : Product) (st st2 : ProductManagerState)
    (h : ProductManager.update_product p st = some st2) :
    ProductRepository.get_all st2.file = some st2.products := by
  rw [ProductManager.update_product] at h
  cases h1 : ProductRepository.update p st.file with
  | none =>
    simp only [h1] at h
    exact Option.noConfusion h
  | some f2 =>
    cases h2 : ProductRepository.get_all f2 with
    | none =>
      simp only [h1, h2] at h
      exact Option.noConfusion h
    | some ps =>
      simp only [h1, h2, Option.some.injEq] at h
      subst h
      exact h2

theorem changes_save_all_sync (st st2 : ChangesManagerState)
    (h : ProductChangesManager.save_all st = some st2) :
    ProductChangesRepository.get_all st2.file = some st2.product_changes := by
  rw [ProductChangesManager.save_all] at h
  cases h2 : ProductChangesRepository.get_all
      (ProductChangesRepository.save_all st.product_changes) with
  | none => rw [h2] at h; cases h
  | some cs =>
    rw [h2] at h
    obtain rfl := Option.some_inj.mp h
    exact h2

/-- C1 counterexample: `BookManager.__init__` does not load the cache
from the repository — over a repository holding one stored book, the
cache right after construction is empty and differs from the stored
collection. -/
theorem C1_manager_cache_counterexample :
    (BookManager.init (some [sampleBookRecord])).books ≠
      BookRepository.get_books
        (BookManager.init (some [sampleBookRecord])).file := by
  decide

/-- C1 amended: `ProductManager`, `CourseManager`, `StudentManager` and
`ProductChangesManager` load the cache from the repository at
construction, so the cache then equals the stored collection;
`BookManager` instead starts with an empty cache.  Every mutating
operation that completes (create/add, update, confirmed delete, stock
adjustment, deactivation of a found book) ends with an unconditional
reload, after which the cache equals the stored collection. -/
theorem C1_manager_cache_amended :
    (∀ (f : ProductFile) (st : ProductManagerState),
      ProductManager.init f = some st →
        ProductRepository.get_all st.file = some st.products) ∧
    (∀ f : CourseFile,
      (CourseManager.init f).courses =
        CourseRepository.get_courses (CourseManager.init f).file) ∧
    (∀ f : StudentFile,
      (StudentManager.init f).students =
        StudentRepository.get_students (StudentManager.init f).file) ∧
    (∀ (f : ChangesFile) (st : ChangesManagerState),
      ProductChangesManager.init f = some st →
        ProductChangesRepository.get_all st.file = some st.product_changes) ∧
    (∀ f : BookFile, (BookManager.init f).books = []) ∧
    (∀ (p : Product) (st st2 : ProductManagerState),
      ProductManager.create_product p st = some st2 →
        ProductRepository.get_all st2.file = some st2.products) ∧
    (∀ (p : Product) (st st2 : ProductManagerState),
      ProductManager.update_product p st = some st2 →
        ProductRepository.get_all st2.file = some st2.products) ∧
    (∀ (p : Product) (st st2 : ProductManagerState),
      ProductManager.delete_product true p st = some st2 →
        ProductRepository.get_all st2.file = some st2.products) ∧
    (∀ (p : Product) (a : Int) (st st2 : ProductManagerState) (alert : Bool),
      ProductManager.delete_product_stock p a st = some (st2, true, alert) →
        ProductRepository.get_all st2.file = some st2.products) ∧
    (∀ (p : Product) (a : Int) (st st2 : ProductManagerState),
      ProductManager.add_product_stock p a st = some st2 →
        ProductRepository.get_all st2.file = some st2.products) ∧
    (∀ (b : Book) (st : BookManagerState),
      (BookManager.add_book b st).books =
        BookRepository.get_books (BookManager.add_book b st).file) ∧
    (∀ (i : Int) (b : Book) (st st2 : BookManagerState),
      BookRepository.get_book_by_id i st.file = some (some b) →
      BookManager.deactivate_book i st = some st2 →
        st2.books = BookRepository.get_books st2.file) ∧
    (∀ (c : Course) (st : CourseManagerState),
      (CourseManager.add_course c st).courses =
        CourseRepository.get_courses (CourseManager.add_course c st).file) ∧
    (∀ (s : Student) (st : StudentManagerState),
      (StudentManager.add_student s st).students =
        StudentRepository.get_students (StudentManager.add_student s st).file) ∧
    (∀ (c : ProductChanges) (st st2 : ChangesManagerState),
      ProductChangesManager.create_product_change c st = some st2 →
        ProductChangesRepository.get_all st2.file = some st2.product_changes) := by
  refine ⟨?_, fun f => rfl, fun f => rfl, ?_, fun f => rfl, ?_, ?_, ?_, ?_, ?_,
    fun b st => rfl, ?_, fun c st => rfl, fun s st => rfl, ?_⟩
  · intro f st h
    rw [ProductManager.init] at h
    cases hga : ProductRepository.get_all f with
    | none => rw [hga] at h; cases h
    | some ps =>
      rw [hga] at h
      obtain rfl := Option.some_inj.mp h
      exact hga
  · intro f st h
    rw [ProductChangesManager.init] at h
    cases hga : ProductChangesRepository.get_all f with
    | none => rw [hga] at h; cases h
    | some cs =>
      rw [hga] at h
      obtain rfl := Option.some_inj.mp h
      exact hga
  · intro p st st2 h
    exact product_save_data_sync _ _ h
  · intro p st st2 h
    exact update_product_sync p st st2 h
  · intro p st st2 h
    rw [ProductManager.delete_product, if_pos rfl] at h
    cases h1 : ProductRepository.delete p.id st.file with
    | none =>
      simp only [h1] at h
      exact Option.noConfusion h
    | some f2 =>
      cases h2 : ProductRepository.get_all f2 with
      | none =>
        simp only [h1, h2] at h
        exact Option.noConfusion h
      | some ps =>
        simp only [h1, h2, Option.some.injEq] at h
        subst h
        exact h2
  · intro p a st st2 alert h
    rw [ProductManager.delete_product_stock] at h
    by_cases hlt : p.in_stock < a
    · rw [if_pos hlt] at h
      have hcon := congrArg (fun o => o.map (fun t => t.2.1)) h
      simp at hcon
    · rw [if_neg hlt] at h
      cases h1 : ProductManager.update_product
          { p with in_stock := p.in_stock - a } st with
      | none =>
        simp only [h1] at h
        exact Option.noConfusion h
      | some stx =>
        simp only [h1, Option.some.injEq, Prod.mk.injEq] at h
        obtain ⟨rfl, -⟩ := h
        exact update_product_sync _ _ _ h1
  · intro p a st st2 h
    exact update_product_sync _ _ _ h
  · intro i b st st2 hfound h
    rw [BookManager.deactivate_book, hfound] at h
    obtain rfl := Option.some_inj.mp h
    rfl
  · intro c st st2 h
    exact changes_save_all_sync _ _ h

theorem C1_manager_cache_amended_witness :
    ProductManager.init (ProductRepository.save_all [sampleProduct]) =
      some sampleManagerState ∧
    ProductRepository.get_all sampleManagerState.file =
      some sampleManagerState.products :=
  ⟨by decide,
   C1_manager_cache_amended.1 (ProductRepository.save_all [sampleProduct])
     sampleManagerState (by decide)⟩

end Spec2Proof
